import Mathlib

/-!
Verification development for the scjail-crawler-service repository.

The Rust sources under `src/` are shallowly embedded: pure helper functions
become Lean functions over `Nat`/`Int`/`String`/`List`, the PostgreSQL store
becomes an explicit `Db` state record threaded through the serialization
functions, fallible operations return `Except Error`, and the external
collaborators (S3 object storage, the OpenAI embedding service, the HTTP
client) become explicit oracles passed as arguments.
-/

/-! ## Character and string helpers

Rust's `str::trim`, `str::split`, `char::is_digit(10)` and
`to_ascii_lowercase` are embedded as list-of-character operations so that
every string manipulation in this file is fully executable and provable.
-/

/-- Embedding of Rust `char::is_whitespace` restricted to the whitespace
characters that actually occur in the scraped documents (ASCII). -/
def isWs (c : Char) : Bool := c = ' ' || c = '\t' || c = '\r' || c = '\n'

/-- Drop leading whitespace, as `str::trim_start`. -/
def dropLeadingWs (l : List Char) : List Char := l.dropWhile isWs

/-- Drop trailing whitespace, as `str::trim_end`. -/
def dropTrailingWs (l : List Char) : List Char := (l.reverse.dropWhile isWs).reverse

/-- Embedding of Rust `str::trim` on the character list. -/
def trimChars (l : List Char) : List Char := dropTrailingWs (dropLeadingWs l)

/-- Embedding of Rust `str::trim`. -/
def trimS (s : String) : String := ⟨trimChars s.data⟩

/-- Embedding of Rust `str::split(sep)`: splits into the (possibly empty)
pieces between separators; the empty input yields one empty piece. -/
def splitOnChar (sep : Char) : List Char → List (List Char)
  | [] => [[]]
  | c :: t =>
    if c = sep then [] :: splitOnChar sep t
    else
      match splitOnChar sep t with
      | [] => [[c]]
      | p :: ps => (c :: p) :: ps

/-- Embedding of Rust `char::to_ascii_lowercase`. -/
def asciiLowerChar (c : Char) : Char :=
  if 'A' ≤ c && c ≤ 'Z' then Char.ofNat (c.toNat + 32) else c

/-- Embedding of Rust `str::to_ascii_lowercase`. -/
def asciiLower (s : String) : String := ⟨s.data.map asciiLowerChar⟩

/-! ## Decimal digits

`format!("{}")` on an unsigned integer and `str::parse::<u64>` are embedded
by an explicit base-10 rendering / evaluation pair. -/

/-- The decimal digit character for `d` (`0 ≤ d ≤ 9`). -/
def digitChar (d : Nat) : Char := Char.ofNat (48 + d)

/-- Worker for `natDigits`: fuel-indexed so that it is structurally
recursive (the fuel always suffices because `n < 10 ^ fuel` on entry). -/
def natDigitsAux : Nat → Nat → List Char → List Char
  | 0, _, acc => acc
  | fuel + 1, n, acc =>
    if n < 10 then digitChar n :: acc
    else natDigitsAux fuel (n / 10) (digitChar (n % 10) :: acc)

/-- Decimal rendering of a natural number, as Rust `format!("{}", n)`. -/
def natDigits (n : Nat) : List Char := natDigitsAux (n + 1) n []

/-- Numeric value of a list of decimal digit characters, the evaluation
performed by Rust `str::parse` on an all-digit string. -/
def digitsVal (l : List Char) : Nat :=
  l.foldl (fun acc c => acc * 10 + (c.toNat - 48)) 0

/-! ## src/utils.rs — Monetary & Unit Parser -/

/-- Embedding of `utils::dollars_to_cents`: strip every non-digit character
and parse the remainder as a `u64`; a failed parse (no digits at all, or
overflow past `u64::MAX`) returns 0. -/
def dollars_to_cents (dollars : String) : Nat :=
  let ds := dollars.data.filter Char.isDigit
  if ds.isEmpty then 0
  else if digitsVal ds < 2 ^ 64 then digitsVal ds else 0

/-- The character list of `format!("{:02}", n)`: zero-padded to two digits. -/
def pad2Chars (n : Nat) : List Char :=
  if n < 10 then ['0', digitChar n] else natDigits n

/-- Embedding of `utils::cents_to_dollars` at unsigned integers:
`format!("${}.{:02}", cents / 100, cents % 100)`. -/
def cents_to_dollars (cents : Nat) : String :=
  ⟨'$' :: (natDigits (cents / 100) ++ '.' :: pad2Chars (cents % 100))⟩

/-! ## SHA-256

`InmateProfile::get_hash_on_core_attributes` feeds the concatenated core
attributes through the `sha2` crate's SHA-256 and formats the digest as
lowercase hex.  The full FIPS 180-4 algorithm is embedded here so that the
key computation is executable. -/

/-- Right rotation on 32-bit words. -/
def rotr (n : UInt32) (x : UInt32) : UInt32 := (x >>> n) ||| (x <<< (32 - n))

/-- SHA-256 round constants. -/
def sha256K : Array UInt32 := #[
  1116352408, 1899447441, 3049323471, 3921009573, 961987163,
  1508970993, 2453635748, 2870763221, 3624381080, 310598401,
  607225278, 1426881987, 1925078388, 2162078206, 2614888103,
  3248222580, 3835390401, 4022224774, 264347078, 604807628,
  770255983, 1249150122, 1555081692, 1996064986, 2554220882,
  2821834349, 2952996808, 3210313671, 3336571891, 3584528711,
  113926993, 338241895, 666307205, 773529912, 1294757372,
  1396182291, 1695183700, 1986661051, 2177026350, 2456956037,
  2730485921, 2820302411, 3259730800, 3345764771, 3516065817,
  3600352804, 4094571909, 275423344, 430227734, 506948616,
  659060556, 883997877, 958139571, 1322822218, 1537002063,
  1747873779, 1955562222, 2024104815, 2227730452, 2361852424,
  2428436474, 2756734187, 3204031479, 3329325298]

/-- SHA-256 initial hash state. -/
def sha256InitH : List UInt32 :=
  [1779033703, 3144134277, 1013904242, 2773480762, 1359893119, 2600822924, 528734635, 1541459225]

/-- FIPS 180-4 padding: append `0x80`, zeros, and the 64-bit big-endian bit
length, reaching a multiple of 64 bytes. -/
def sha256Pad (msg : List UInt8) : List UInt8 :=
  let len := msg.length
  let bitLen := 8 * len
  let padZeros := (120 - (len + 1) % 64) % 64
  msg ++ [(0x80 : UInt8)] ++ List.replicate padZeros (0 : UInt8) ++
    (List.range 8).map (fun i => UInt8.ofNat ((bitLen >>> (8 * (7 - i))) % 256))

/-- Split the padded message into 64-byte blocks (fuel-indexed). -/
def chunks64Aux : Nat → List UInt8 → List (List UInt8)
  | 0, _ => []
  | _, [] => []
  | fuel + 1, l => l.take 64 :: chunks64Aux fuel (l.drop 64)

/-- Split the padded message into 64-byte blocks. -/
def chunks64 (l : List UInt8) : List (List UInt8) := chunks64Aux l.length l

/-- Big-endian packing of bytes into 32-bit words. -/
def bytesToWords : List UInt8 → List UInt32
  | a :: b :: c :: d :: rest =>
    (UInt32.ofNat a.toNat <<< 24 ||| UInt32.ofNat b.toNat <<< 16 |||
      UInt32.ofNat c.toNat <<< 8 ||| UInt32.ofNat d.toNat) :: bytesToWords rest
  | _ => []

/-- σ₀ of the message schedule. -/
def sSigma0 (x : UInt32) : UInt32 := rotr 7 x ^^^ rotr 18 x ^^^ (x >>> 3)

/-- σ₁ of the message schedule. -/
def sSigma1 (x : UInt32) : UInt32 := rotr 17 x ^^^ rotr 19 x ^^^ (x >>> 10)

/-- Σ₀ of the compression function. -/
def bSigma0 (x : UInt32) : UInt32 := rotr 2 x ^^^ rotr 13 x ^^^ rotr 22 x

/-- Σ₁ of the compression function. -/
def bSigma1 (x : UInt32) : UInt32 := rotr 6 x ^^^ rotr 11 x ^^^ rotr 25 x

/-- The 64-entry message schedule of one block. -/
def sha256Schedule (block : List UInt8) : Array UInt32 :=
  (List.range 48).foldl
    (fun w i =>
      w.push (sSigma1 (w.getD (i + 14) 0) + w.getD (i + 9) 0 +
        sSigma0 (w.getD (i + 1) 0) + w.getD i 0))
    (bytesToWords block).toArray

/-- One round of the SHA-256 compression function. -/
def sha256Round (w : Array UInt32) (t : Nat)
    (s : UInt32 × UInt32 × UInt32 × UInt32 × UInt32 × UInt32 × UInt32 × UInt32) :
    UInt32 × UInt32 × UInt32 × UInt32 × UInt32 × UInt32 × UInt32 × UInt32 :=
  let (a, b, c, d, e, f, g, h) := s
  let t1 := h + bSigma1 e + ((e &&& f) ^^^ ((~~~e) &&& g)) + sha256K.getD t 0 + w.getD t 0
  let t2 := bSigma0 a + ((a &&& b) ^^^ (a &&& c) ^^^ (b &&& c))
  (t1 + t2, a, b, c, d + t1, e, f, g)

/-- Compress one 64-byte block into the running hash state. -/
def sha256Compress (hs : List UInt32) (block : List UInt8) : List UInt32 :=
  let w := sha256Schedule block
  let a0 := hs.getD 0 0
  let b0 := hs.getD 1 0
  let c0 := hs.getD 2 0
  let d0 := hs.getD 3 0
  let e0 := hs.getD 4 0
  let f0 := hs.getD 5 0
  let g0 := hs.getD 6 0
  let h0 := hs.getD 7 0
  let (a, b, c, d, e, f, g, h) :=
    (List.range 64).foldl (fun s t => sha256Round w t s) (a0, b0, c0, d0, e0, f0, g0, h0)
  [a0 + a, b0 + b, c0 + c, d0 + d, e0 + e, f0 + f, g0 + g, h0 + h]

/-- SHA-256 digest of a byte string. -/
def sha256Bytes (msg : List UInt8) : List UInt8 :=
  let hs := (chunks64 (sha256Pad msg)).foldl sha256Compress sha256InitH
  (hs.map (fun (w : UInt32) =>
    [UInt8.ofNat ((w >>> 24).toNat % 256), UInt8.ofNat ((w >>> 16).toNat % 256),
      UInt8.ofNat ((w >>> 8).toNat % 256), UInt8.ofNat (w.toNat % 256)])).flatten

/-- Lowercase hex digit. -/
def hexDigit (d : Nat) : Char :=
  if d < 10 then Char.ofNat (48 + d) else Char.ofNat (87 + d)

/-- Lowercase hex rendering of a byte string, two digits per byte, as the
`{:x}` formatting of a `sha2` digest. -/
def bytesToHex (bs : List UInt8) : String :=
  ⟨bs.foldr (fun b acc => hexDigit (b.toNat / 16) :: hexDigit (b.toNat % 16) :: acc) []⟩

/-- Lowercase hex SHA-256 of the UTF-8 bytes of a string. -/
def sha256Hex (s : String) : String := bytesToHex (sha256Bytes s.toUTF8.toList)

/-! ## src/error.rs — error taxonomy -/

/-- Embedding of the crate's `Error` enum (src/error.rs). -/
inductive Error where
  | NetworkError
  | ParseError
  | ArgumentError
  | InternalError (detail : String)
  | PostgresError (detail : String)
  | S3Error (detail : String)
deriving DecidableEq, Repr

/-! ## src/inmate.rs — domain data model -/

/-- Embedding of `InmateProfile` (src/inmate.rs).  `img_blob` is the raw
image bytes; `embedding` is the optional OpenAI embedding vector. -/
structure InmateProfile where
  first_name : String
  middle_name : Option String
  last_name : String
  affix : Option String
  perm_id : Option String
  sex : Option String
  dob : String
  arrest_agency : Option String
  booking_date_iso8601 : String
  booking_number : Option String
  height : Option String
  weight : Option String
  race : Option String
  eye_color : Option String
  aliases : Option (List String)
  img_blob : Option (List UInt8)
  scil_sys_id : Option String
  embedding : Option (List Float)

/-- `Default::default()` for `InmateProfile`. -/
def InmateProfile.default : InmateProfile :=
  { first_name := "", middle_name := none, last_name := "", affix := none,
    perm_id := none, sex := none, dob := "", arrest_agency := none,
    booking_date_iso8601 := "", booking_number := none, height := none,
    weight := none, race := none, eye_color := none, aliases := none,
    img_blob := none, scil_sys_id := none, embedding := none }

/-- Embedding of `Bond` (src/inmate.rs): the amount is an unsigned 64-bit
minor-units integer. -/
structure Bond where
  bond_type : String
  bond_amount : Nat
deriving DecidableEq

/-- Embedding of `BondInformation`. -/
structure BondInformation where
  bonds : List Bond
deriving DecidableEq

/-- Embedding of `ChargeGrade`. -/
inductive ChargeGrade where
  | Felony
  | Misdemeanor
deriving DecidableEq, Repr

/-- `Display` for `ChargeGrade`. -/
def ChargeGrade.toDisplay : ChargeGrade → String
  | .Felony => "Felony"
  | .Misdemeanor => "Misdemeanor"

/-- Embedding of `Charge`. -/
structure Charge where
  description : String
  grade : ChargeGrade
  offense_date : String
deriving DecidableEq

/-- Embedding of `ChargeInformation`. -/
structure ChargeInformation where
  charges : List Charge
deriving DecidableEq

/-- Embedding of `Record` (src/inmate.rs). -/
structure Record where
  url : String
  profile : InmateProfile
  bond : BondInformation
  charges : ChargeInformation

/-! ## The detail document

A detail page is embedded by the data the extractor's CSS selectors read
out of it: the profile-photo `src` attribute (`.inmates img`), the
`<dt>`/`<dd>` pairs of each `.table-display` section (a `dt` may have no
text node, hence `Option String`; a missing `dd` text defaults to `""`
in the source via `unwrap_or_default`), and the `<td>` cell texts of each
row of the bond and charges tables. -/

/-- One `.table-display` section: the `dt` label texts and `dd` value
texts, paired positionally by the source's zipped iteration. -/
structure ProfileTable where
  dts : List (Option String)
  dds : List String

/-- Embedding of a parsed detail document (`scraper::Html`). -/
structure Html where
  imgSrc : Option String
  profileTables : List ProfileTable
  bondRows : List (List String)
  chargeRows : List (List String)

/-- The image-fetch collaborator: given a URL, `none` models a failed
`send()`, and `some (status_success, bytes?)` models a response with its
status flag and the optional result of `bytes()`. -/
def ImgClient : Type := String → Option (Bool × Option (List UInt8))

/-! ## src/inmate.rs — Record Extractor -/

/-- Embedding of `InmateProfile::get_aliases`: split the raw alias text on
commas, trim each piece, drop empty pieces; zero survivors is `None`. -/
def InmateProfile.get_aliases (aliases : String) : Option (List String) :=
  let alias_vec := ((splitOnChar ',' aliases.data).map
    (fun s => (⟨trimChars s⟩ : String))).filter (fun s => !(s == ""))
  match alias_vec with
  | [] => none
  | _ => some alias_vec

/-- One step of the label/value dispatch of
`InmateProfile::set_core_profile_data`: normalize the `dt` label and update
the matching field from the trimmed `dd` text. -/
def InmateProfile.applyPair (p : InmateProfile) (dt : Option String) (dd : String) :
    InmateProfile :=
  match dt with
  | none => p
  | some dt_text =>
    let dd_text := trimS dd
    match asciiLower (trimS dt_text) with
    | "first:" => { p with first_name := dd_text }
    | "middle:" => { p with middle_name := if dd_text = "" then none else some dd_text }
    | "last:" => { p with last_name := dd_text }
    | "affix:" => { p with affix := if dd_text = "" then none else some dd_text }
    | "permanent id:" => { p with perm_id := if dd_text = "" then none else some dd_text }
    | "sex:" => { p with sex := if dd_text = "" then none else some dd_text }
    | "date of birth:" => { p with dob := dd_text }
    | "height:" =>
      { p with height :=
          if dd_text = "" then none
          else some ⟨dd_text.data.filter (fun c => !(c == '\\'))⟩ }
    | "weight:" => { p with weight := if dd_text = "" then none else some dd_text }
    | "race:" => { p with race := if dd_text = "" then none else some dd_text }
    | "eye color:" => { p with eye_color := if dd_text = "" then none else some dd_text }
    | "alias(es):" => { p with aliases := InmateProfile.get_aliases dd_text }
    | "committing agency:" =>
      { p with arrest_agency := if dd_text = "" then none else some dd_text }
    | "booking date time:" => { p with booking_date_iso8601 := dd_text }
    | "booking number:" =>
      { p with booking_number := if dd_text = "" then none else some dd_text }
    | _ => p

/-- Embedding of `InmateProfile::set_core_profile_data`: walk every
`.table-display` section and dispatch each positional `(dt, dd)` pair.
The found-labels counter of the source is only used for a warning log and
is not modelled. -/
def InmateProfile.set_core_profile_data (p : InmateProfile) (html : Html) : InmateProfile :=
  html.profileTables.foldl
    (fun p table =>
      (table.dts.zip table.dds).foldl
        (fun p pair => InmateProfile.applyPair p pair.1 pair.2) p)
    p

/-- The profile state before parsing: `InmateProfile::default()` with the
sys id attached. -/
def initialProfile (sys_id : String) : InmateProfile :=
  { InmateProfile.default with scil_sys_id := some sys_id }

/-- Joining the pre-fired image fetch in `InmateProfile::build`: a failed
send or failed `bytes()` leaves `img_blob` untouched; a response with a
non-success status clears it; a successful response stores the bytes. -/
def applyImgResponse (profile : InmateProfile)
    (resp : Option (Option (Bool × Option (List UInt8)))) : InmateProfile :=
  match resp with
  | none => profile
  | some none => profile
  | some (some (_, none)) => profile
  | some (some (status_success, some blob)) =>
    if status_success then { profile with img_blob := some blob }
    else { profile with img_blob := none }

/-- Embedding of `InmateProfile::build`: fire the (best-effort) image
fetch, parse the profile section, attach the image bytes when the fetch
succeeded with a success status, and fail with `ParseError` unless all
four core attributes are non-empty. -/
def InmateProfile.build (html : Html) (sys_id : String) (client : ImgClient) :
    Except Error InmateProfile :=
  let img := match html.imgSrc with
    | some img_url => some (client ("https:" ++ img_url))
    | none => none
  let profile := InmateProfile.set_core_profile_data (initialProfile sys_id) html
  let profile := applyImgResponse profile img
  if profile.first_name == "" || profile.last_name == "" || profile.dob == "" ||
      profile.booking_date_iso8601 == "" then
    .error .ParseError
  else
    .ok profile

/-- One bond-table row of `BondInformation::build`: `td.nth(1)` is the
bond type, the following `td.nth(0)` (absolute cell 2) the amount; a row
missing either cell is skipped. -/
def bondOfRow (row : List String) : Option Bond :=
  match row.get? 1 with
  | none => none
  | some bond_type =>
    match row.get? 2 with
    | none => none
    | some amt => some { bond_type := bond_type, bond_amount := dollars_to_cents amt }

/-- Embedding of `BondInformation::build`: zero extracted bonds is only
logged as an error and still returns `Ok`. -/
def BondInformation.build (html : Html) : Except Error BondInformation :=
  .ok { bonds := html.bondRows.filterMap bondOfRow }

/-- Embedding of `ChargeGrade::from_string`: unrecognized text defaults to
`Misdemeanor` with a warning, never an error. -/
def ChargeGrade.from_string (s : String) : ChargeGrade :=
  match asciiLower s with
  | "felony" => .Felony
  | "misdemeanor" => .Misdemeanor
  | _ => .Misdemeanor

/-- One charges-table row of `ChargeInformation::build`: absolute cells
1, 2, 3 are description, grade and offense date; each missing cell is
defaulted (`""`, `Misdemeanor`, "now"), never fatal. -/
def chargeOfRow (now : String) (row : List String) : Charge :=
  { description := match row.get? 1 with
      | some td => trimS td
      | none => ""
    grade := match row.get? 2 with
      | some g => ChargeGrade.from_string (trimS g)
      | none => .Misdemeanor
    offense_date := match row.get? 3 with
      | some d => trimS d
      | none => now }

/-- Embedding of `ChargeInformation::build`: zero extracted charges is a
fatal `ParseError`.  `now` stands for `chrono::Utc::now().to_string()`. -/
def ChargeInformation.build (html : Html) (now : String) : Except Error ChargeInformation :=
  let charges := html.chargeRows.map (chargeOfRow now)
  if charges.isEmpty then .error .ParseError
  else .ok { charges := charges }

/-- Embedding of `Record::build` on an already-fetched detail document:
profile, bond table and charges table in order, each failure propagating. -/
def Record.build (client : ImgClient) (sys_id : String) (html : Html) (now : String) :
    Except Error Record :=
  match InmateProfile.build html sys_id client with
  | .error e => .error e
  | .ok profile =>
    match BondInformation.build html with
    | .error e => .error e
    | .ok bond =>
      match ChargeInformation.build html now with
      | .error e => .error e
      | .ok charges =>
        .ok { url := "https://www.scottcountyiowa.us/sheriff/inmates.php" ++ sys_id,
              profile := profile, bond := bond, charges := charges }

/-- Embedding of `InmateProfile::get_hash_on_core_attributes`: the object
storage key is `mugshots/` followed by the lowercase hex SHA-256 of the
concatenated four core attributes. -/
def InmateProfile.get_hash_on_core_attributes (p : InmateProfile) : String :=
  "mugshots/" ++
    sha256Hex (p.first_name ++ p.last_name ++ p.dob ++ p.booking_date_iso8601)

/-! ## The relational store

The PostgreSQL tables created by `serialize::create_dbs` are embedded as
lists of rows inside a `Db` state record.  The write-only serial ids of
`bond`, `charge` and `img` rows are never read by the crate and are
elided; the `inmate` and `alias` ids are read back (`RETURNING id`) and
are modelled with explicit next-id counters.  A transaction is a copy of
the state: `serialize_record` commits the transformed copy on success and
returns the untouched original on failure (rollback). -/

/-- One row of the `inmate` table.  `img_url` and `scil_sysid` are
nullable columns; the uniqueness constraint is over
(first_name, last_name, dob, booking_date). -/
structure InmateRow where
  id : Nat
  first_name : String
  middle_name : Option String
  last_name : String
  affix : Option String
  permanent_id : Option String
  sex : Option String
  dob : String
  arresting_agency : Option String
  booking_date : String
  booking_number : Option String
  height : Option String
  weight : Option String
  race : Option String
  eye_color : Option String
  img_url : Option String
  scil_sysid : Option String
  embedding : Option (List Float)

/-- One row of the `alias` table (`alias TEXT UNIQUE NOT NULL`).  The
column is called `alias_text` here because `alias` is a Lean command
keyword. -/
structure AliasRow where
  id : Nat
  alias_text : String
deriving DecidableEq

/-- One row of the `bond` table: `amount_pennies` is a signed 32-bit
INTEGER column, modelled as `Int`. -/
structure BondRow where
  inmate_id : Nat
  bond_type : String
  amount_pennies : Int
deriving DecidableEq

/-- One row of the `charge` table. -/
structure ChargeRow where
  inmate_id : Nat
  description : String
  grade : String
  offense_date : String
deriving DecidableEq

/-- One row of the `img` table. -/
structure ImgRow where
  inmate_id : Nat
  img : Option (List UInt8)
deriving DecidableEq

/-- The relational store.  The `alias` table is the field `alias_rows`
(`alias` is a Lean command keyword). -/
structure Db where
  inmate : List InmateRow
  alias_rows : List AliasRow
  inmate_alias : List (Nat × Nat)
  bond : List BondRow
  charge : List ChargeRow
  img : List ImgRow
  nextInmateId : Nat
  nextAliasId : Nat

/-- The object-storage collaborator: `put key bytes` is `true` exactly
when the upload succeeds. -/
structure S3Client where
  put : String → List UInt8 → Bool

/-- The composite natural-identity key of the `inmate` table compared
against a profile: the UNIQUE (first_name, last_name, dob, booking_date)
constraint. -/
def sameCoreKey (r : InmateRow) (p : InmateProfile) : Bool :=
  r.first_name == p.first_name && r.last_name == p.last_name &&
    r.dob == p.dob && r.booking_date == p.booking_date_iso8601

/-- Diagnostic text of the unique-constraint violation surfaced through
`From<sqlx::Error>`. -/
def dupKeyDetail : String :=
  "duplicate key value violates unique constraint on (first_name, last_name, dob, booking_date)"

/-- Diagnostic text of a CHECK-constraint violation on the inmate insert. -/
def emptyNameDetail : String := "new row violates check constraint on first_name or last_name"

/-- Diagnostic text of the `alias <> ''` CHECK constraint. -/
def emptyAliasDetail : String := "new row violates check constraint on alias"

/-- Diagnostic text of a primary-key violation on `inmate_alias`. -/
def joinPkDetail : String := "duplicate key value violates inmate_alias primary key"

/-- Embedding of `serialize::has_s3_upload_criteria`: non-empty image
bytes and an object-storage client present. -/
def has_s3_upload_criteria (profile : InmateProfile) (aws_s3_client : Option S3Client) : Bool :=
  profile.img_blob.isSome && !(profile.img_blob.getD []).isEmpty && aws_s3_client.isSome

/-- The `inmate` row written for a profile under a fresh id, carrying the
pre-computed `img_url` value. -/
def insertedRow (profile : InmateProfile) (id : Nat) (s3_img_url : String) : InmateRow :=
  { id := id,
    first_name := profile.first_name, middle_name := profile.middle_name,
    last_name := profile.last_name, affix := profile.affix,
    permanent_id := profile.perm_id, sex := profile.sex,
    dob := profile.dob, arresting_agency := profile.arrest_agency,
    booking_date := profile.booking_date_iso8601,
    booking_number := profile.booking_number, height := profile.height,
    weight := profile.weight, race := profile.race,
    eye_color := profile.eye_color, img_url := some s3_img_url,
    scil_sysid := profile.scil_sys_id, embedding := profile.embedding }

/-- The `INSERT INTO inmate ... RETURNING id` statement of
`serialize_profile`: fails on the composite uniqueness constraint or on
an empty required name, else appends the row under the fresh id. -/
def insertInmate (profile : InmateProfile) (s3_img_url : String) (tx : Db) :
    Except Error (Nat × Db) :=
  if tx.inmate.any (fun r => sameCoreKey r profile) then
    .error (.PostgresError dupKeyDetail)
  else if profile.first_name == "" || profile.last_name == "" then
    .error (.PostgresError emptyNameDetail)
  else
    .ok (tx.nextInmateId,
      { tx with
        inmate := tx.inmate ++ [insertedRow profile tx.nextInmateId s3_img_url],
        nextInmateId := tx.nextInmateId + 1 })

/-- Embedding of `serialize_alias`: insert-or-return-existing-id upsert on
the unique `alias` column; the `alias <> ''` CHECK rejects empty text. -/
def serialize_alias (a : String) (tx : Db) : Except Error (Nat × Db) :=
  if a == "" then .error (.PostgresError emptyAliasDetail)
  else
    match tx.alias_rows.find? (fun r => r.alias_text == a) with
    | some r => .ok (r.id, tx)
    | none =>
      .ok (tx.nextAliasId,
        { tx with
          alias_rows := tx.alias_rows ++ [({ id := tx.nextAliasId, alias_text := a } : AliasRow)],
          nextAliasId := tx.nextAliasId + 1 })

/-- First-occurrence deduplication, as `itertools::unique()` on the alias
iterator. -/
def dedupFirst (l : List String) : List String :=
  l.foldl (fun acc s => if s ∈ acc then acc else acc ++ [s]) []

/-- The alias loop of `serialize_profile`: skip empty aliases, upsert each
alias (a failure there is logged and skipped), then insert the join row —
whose primary-key violation would propagate. -/
def aliasJoinLoop (aliases : List String) (inmate_id : Nat) (tx : Db) : Except Error Db :=
  match aliases with
  | [] => .ok tx
  | a :: rest =>
    if a == "" then aliasJoinLoop rest inmate_id tx
    else
      match serialize_alias a tx with
      | .error _ => aliasJoinLoop rest inmate_id tx
      | .ok (alias_id, tx) =>
        if (inmate_id, alias_id) ∈ tx.inmate_alias then
          .error (.PostgresError joinPkDetail)
        else
          aliasJoinLoop rest inmate_id
            { tx with inmate_alias := tx.inmate_alias ++ [(inmate_id, alias_id)] }

/-- Embedding of `serialize_profile`: pre-compute the content-derived S3
key when the upload criteria hold, insert the inmate row optimistically
carrying that key as `img_url`, attempt the upload and patch `img_url`
back to `""` on upload failure, serialize the aliases and the image blob
row, and return the fresh inmate id. -/
def serialize_profile (profile : InmateProfile) (tx : Db) (aws_s3_client : Option S3Client) :
    Except Error (Nat × Db) :=
  let criteria := has_s3_upload_criteria profile aws_s3_client
  let s3_img_url := if criteria then profile.get_hash_on_core_attributes else ""
  match insertInmate profile s3_img_url tx with
  | .error e => .error e
  | .ok (inmate_id, tx) =>
    let clearImgUrl : InmateRow → InmateRow :=
      fun r => if r.id = inmate_id then { r with img_url := some "" } else r
    let tx :=
      match aws_s3_client with
      | none => tx
      | some client =>
        if criteria then
          if client.put s3_img_url (profile.img_blob.getD []) then tx
          else { tx with inmate := tx.inmate.map clearImgUrl }
        else tx
    match aliasJoinLoop (dedupFirst (profile.aliases.getD [])) inmate_id tx with
    | .error e => .error e
    | .ok tx =>
      .ok (inmate_id, { tx with img := tx.img ++ [{ inmate_id := inmate_id, img := profile.img_blob }] })

/-- Rust `u64 as i32`: truncate to 32 bits and reinterpret as two's
complement. -/
def u64_as_i32 (a : Nat) : Int :=
  let r : Nat := a % 2 ^ 32
  if r < 2 ^ 31 then (r : Int) else (r : Int) - 2 ^ 32

/-- Embedding of `serialize_bond`: the u64 minor-units amount is cast with
`as i32` before insertion into the INTEGER `amount_pennies` column. -/
def serialize_bond (bond : Bond) (inmate_id : Nat) (tx : Db) : Except Error Db :=
  .ok { tx with bond := tx.bond ++
    [{ inmate_id := inmate_id, bond_type := bond.bond_type,
       amount_pennies := u64_as_i32 bond.bond_amount }] }

/-- Embedding of `serialize_charge`. -/
def serialize_charge (charge : Charge) (inmate_id : Nat) (tx : Db) : Except Error Db :=
  .ok { tx with charge := tx.charge ++
    [{ inmate_id := inmate_id, description := charge.description,
       grade := charge.grade.toDisplay, offense_date := charge.offense_date }] }

/-- The bond loop of `serialize_record`: each insert's error propagates
through `?`. -/
def serializeBonds (bonds : List Bond) (inmate_id : Nat) (tx : Db) : Except Error Db :=
  match bonds with
  | [] => .ok tx
  | b :: rest =>
    match serialize_bond b inmate_id tx with
    | .error e => .error e
    | .ok tx => serializeBonds rest inmate_id tx

/-- The charge loop of `serialize_record`. -/
def serializeCharges (charges : List Charge) (inmate_id : Nat) (tx : Db) : Except Error Db :=
  match charges with
  | [] => .ok tx
  | c :: rest =>
    match serialize_charge c inmate_id tx with
    | .error e => .error e
    | .ok tx => serializeCharges rest inmate_id tx

/-- Embedding of `serialize_record`: one database transaction per record —
profile, then every bond, then every charge; commit on success, implicit
rollback (the original state) on any error. -/
def serialize_record (record : Record) (db : Db) (aws_s3_client : Option S3Client) :
    Except Error Nat × Db :=
  let attempt : Except Error (Nat × Db) :=
    match serialize_profile record.profile db aws_s3_client with
    | .error e => .error e
    | .ok (inmate_id, tx) =>
      match serializeBonds record.bond.bonds inmate_id tx with
      | .error e => .error e
      | .ok tx =>
        match serializeCharges record.charges.charges inmate_id tx with
        | .error e => .error e
        | .ok tx => .ok (inmate_id, tx)
  match attempt with
  | .ok (inmate_id, tx) => (.ok inmate_id, tx)
  | .error e => (.error e, db)

/-- The OpenAI collaborator: given a record, `none` models a failed
embedding request and `some v` a returned embedding vector. -/
def OaiClient : Type := Record → Option (List Float)

/-- The embedding-gathering step of `serialize_records`: only attempted
when the record has no embedding and a client is present; a failure is
logged and the record is serialized unchanged. -/
def gather_openai_embedding (record : Record) (oai_client : Option OaiClient) : Record :=
  match oai_client with
  | none => record
  | some client =>
    if record.profile.embedding.isNone then
      match client record with
      | some v => { record with profile := { record.profile with embedding := some v } }
      | none => record
    else record

/-- Embedding of `serialize_records`: serialize each record in order,
counting inserted and failed records; a failed record is logged and the
loop continues.  Returns (inserted_count, failed_count, final store). -/
def serialize_records (records : List Record) (db : Db) (oai_client : Option OaiClient)
    (aws_s3_client : Option S3Client) : Nat × Nat × Db :=
  match records with
  | [] => (0, 0, db)
  | record :: rest =>
    let record := gather_openai_embedding record oai_client
    match serialize_record record db aws_s3_client with
    | (.ok _, db') =>
      let (inserted, failed, dbf) := serialize_records rest db' oai_client aws_s3_client
      (inserted + 1, failed, dbf)
    | (.error _, db') =>
      let (inserted, failed, dbf) := serialize_records rest db' oai_client aws_s3_client
      (inserted, failed + 1, dbf)

/-- Embedding of `update_null_img_record` (the Backfill Updater): fail
fast when the re-parsed record still has no image bytes or the upload
criteria do not hold; otherwise compute the same content key, upload, and
on success update only the `img_url` column of the given row id. -/
def update_null_img_record (inmate_id : Nat) (record : Record) (db : Db)
    (aws_s3_client : Option S3Client) : Except Error Db :=
  if record.profile.img_blob.isNone then
    .error (.InternalError "Can't update null img record because latest parse still didn't have image")
  else if !(has_s3_upload_criteria record.profile aws_s3_client) then
    .error (.InternalError "Record or env does not meet S3 upload criteria.")
  else
    let s3_img_url := record.profile.get_hash_on_core_attributes
    match aws_s3_client with
    | none => .error (.InternalError "Record or env does not meet S3 upload criteria.")
    | some client =>
      let setImgUrl : InmateRow → InmateRow :=
        fun r => if r.id = inmate_id then { r with img_url := some s3_img_url } else r
      if client.put s3_img_url (record.profile.img_blob.getD []) then
        .ok { db with inmate := db.inmate.map setImgUrl }
      else .error (.S3Error "failed to upload image")

/-! ## src/utils.rs — Incremental Filter -/

/-- Insert into the ordered-by-id-descending listing (the `ORDER BY id
DESC` of the incremental query). -/
def insertDescById (r : InmateRow) : List InmateRow → List InmateRow
  | [] => [r]
  | s :: rest => if s.id ≤ r.id then r :: s :: rest else s :: insertDescById r rest

/-- The `inmate` table ordered by descending id. -/
def sortDescById (l : List InmateRow) : List InmateRow := l.foldr insertDescById []

/-- The `n` most recently persisted rows (`ORDER BY id DESC LIMIT n`). -/
def recentRows (n : Nat) (db : Db) : List InmateRow := (sortDescById db.inmate).take n

/-- `record.img_url.is_none() || record.img_url.unwrap().is_empty()`. -/
def imgUrlMissing (r : InmateRow) : Bool :=
  match r.img_url with
  | none => true
  | some u => u == ""

/-- `HashSet::insert` on the blacklist, modelled as append-if-absent. -/
def insertSet (bl : List String) (s : String) : List String :=
  if s ∈ bl then bl else bl ++ [s]

/-- `HashMap::insert` on the updatelist: overwrite the value of an
existing key, else append. -/
def insertMap (ul : List (String × Nat)) (s : String) (v : Nat) : List (String × Nat) :=
  match ul with
  | [] => [(s, v)]
  | (k, w) :: t => if k = s then (s, v) :: t else (k, w) :: insertMap t s v

/-- The row loop of `get_blacklist_and_updatelist`. -/
def blacklistLoop (rows : List InmateRow) (acc : List String × List (String × Nat)) :
    List String × List (String × Nat) :=
  match rows with
  | [] => acc
  | r :: rest =>
    match r.scil_sysid with
    | some sys_id =>
      if imgUrlMissing r then blacklistLoop rest (acc.1, insertMap acc.2 sys_id r.id)
      else blacklistLoop rest (insertSet acc.1 sys_id, acc.2)
    | none => blacklistLoop rest acc

/-- Embedding of `utils::get_blacklist_and_updatelist`: examine the `n`
most recently persisted rows; a row with a natural key goes to the
updatelist (with its row id) when its `img_url` is null or empty and to
the blacklist otherwise; a row with a null natural key is skipped with a
warning. -/
def get_blacklist_and_updatelist (n : Nat) (db : Db) : List String × List (String × Nat) :=
  blacklistLoop (recentRows n db) ([], [])

/-! ## src/lib.rs — discovery loop -/

/-- The per-candidate build collaborator of the discovery loop: the result
of `Record::build` for each sys id. -/
def BuildOracle : Type := String → Except Error Record

/-- The candidate loop of `fetch_records`: a failed build is logged and
the loop continues; with the `STOP_EARLY` flag set the loop returns right
after the first candidate. -/
def fetchLoop (sys_ids : List String) (build : BuildOracle) (stop_early : Bool)
    (records : List Record) : List Record :=
  match sys_ids with
  | [] => records
  | sys_id :: rest =>
    let records := match build sys_id with
      | .ok record => records ++ [record]
      | .error _ => records
    if stop_early then records
    else fetchLoop rest build stop_early records

/-- Embedding of `fetch_records`: a failure to enumerate the sys ids at
all aborts the run with `NetworkError`; otherwise every candidate is
attempted in order. -/
def fetch_records (sys_ids : Except Error (List String)) (build : BuildOracle)
    (stop_early : Bool) : Except Error (List Record) :=
  match sys_ids with
  | .error _ => .error .NetworkError
  | .ok ids => .ok (fetchLoop ids build stop_early [])

/-! ## Store invariants and specification helpers -/

/-- Well-formedness of a reachable store state: row ids are below the
next-id counters, join rows reference already-created inmates, and the
`alias` table respects its uniqueness constraints. -/
def Db.WF (db : Db) : Prop :=
  (∀ r ∈ db.inmate, r.id < db.nextInmateId) ∧
  (∀ j ∈ db.inmate_alias, j.1 < db.nextInmateId) ∧
  (∀ a ∈ db.alias_rows, a.id < db.nextAliasId) ∧
  (db.alias_rows.map AliasRow.id).Nodup ∧
  (db.alias_rows.map AliasRow.alias_text).Nodup

/-- The `img_url` value of a freshly committed inmate row as a function of
the upload outcome: the content key when the upload criteria hold and the
upload succeeds, the empty string otherwise. -/
def finalImgUrl (profile : InmateProfile) (aws_s3_client : Option S3Client) : String :=
  if has_s3_upload_criteria profile aws_s3_client then
    match aws_s3_client with
    | some client =>
      if client.put profile.get_hash_on_core_attributes (profile.img_blob.getD []) then
        profile.get_hash_on_core_attributes
      else ""
    | none => ""
  else ""

/-! ## Concrete fixtures -/

/-- An image client whose `send()` always fails. -/
def clientNone : ImgClient := fun _ => none

/-- An object-storage client whose uploads always fail. -/
def s3AlwaysFail : S3Client := { put := fun _ _ => false }

/-- An object-storage client whose uploads always succeed. -/
def s3AlwaysOk : S3Client := { put := fun _ _ => true }

/-- The freshly created store. -/
def emptyDb : Db :=
  { inmate := [], alias_rows := [], inmate_alias := [], bond := [], charge := [],
    img := [], nextInmateId := 1, nextAliasId := 1 }

/-- A fully populated extracted profile. -/
def profileW : InmateProfile :=
  { first_name := "John", middle_name := none, last_name := "Smith", affix := none,
    perm_id := some "12345", sex := some "Male", dob := "1990-01-01",
    arrest_agency := some "Scott County Sheriff",
    booking_date_iso8601 := "2024-01-02 03:04:05", booking_number := some "B-1",
    height := some "6 0", weight := some "180 lbs", race := some "White",
    eye_color := some "Blue", aliases := some ["Johnny", "JS"],
    img_blob := some [1, 2, 3], scil_sys_id := some "&sysid=11", embedding := none }

/-- A record around `profileW`. -/
def recordW : Record :=
  { url := "https://www.scottcountyiowa.us/sheriff/inmates.php&sysid=11",
    profile := profileW,
    bond := { bonds := [({ bond_type := "Cash", bond_amount := 10000 } : Bond)] },
    charges := { charges := [({ description := "Theft", grade := .Felony, offense_date := "2024-01-01" } : Charge)] } }

/-- A committed inmate row sharing `profileW`'s composite key. -/
def rowDup : InmateRow :=
  { id := 1, first_name := "John", middle_name := none, last_name := "Smith",
    affix := none, permanent_id := none, sex := none, dob := "1990-01-01",
    arresting_agency := none, booking_date := "2024-01-02 03:04:05",
    booking_number := none, height := none, weight := none, race := none,
    eye_color := none, img_url := some "", scil_sysid := some "&sysid=11",
    embedding := none }

/-- A store already holding `rowDup`. -/
def dbDup : Db :=
  { inmate := [rowDup], alias_rows := [], inmate_alias := [], bond := [], charge := [],
    img := [], nextInmateId := 2, nextAliasId := 1 }

/-- A persisted row with natural key "a" and a present image URL. -/
def rowSyncA : InmateRow :=
  { rowDup with id := 1, scil_sysid := some "a", img_url := some "mugshots/abc" }

/-- A persisted row with natural key "a" and a null image URL. -/
def rowMissA : InmateRow :=
  { rowDup with id := 2, scil_sysid := some "a", img_url := none }

/-- A persisted row with natural key "b" and an empty image URL. -/
def rowMissB : InmateRow :=
  { rowDup with id := 2, scil_sysid := some "b", img_url := some "" }

/-- A store whose two most recent rows share the natural key "a", one with
and one without an image URL. -/
def dbSharedKey : Db :=
  { emptyDb with inmate := [rowSyncA, rowMissA], nextInmateId := 3 }

/-- A store whose two most recent rows carry the distinct natural keys
"a" (image present) and "b" (image empty). -/
def dbDistinctKeys : Db :=
  { emptyDb with inmate := [rowSyncA, rowMissB], nextInmateId := 3 }

/-- A detail document whose profile section has every core label except
`Date of Birth:`. -/
def htmlMissingDob : Html :=
  { imgSrc := none,
    profileTables := [{
      dts := [some "First:", some "Last:", some "Booking Date Time:"],
      dds := ["John", "Smith", "2024-01-02 03:04:05"] }],
    bondRows := [["2024-01-01", "Cash", "$100.00"]],
    chargeRows := [["2024-01-01", "Theft", "Felony", "2024-01-01"]] }

/-- A detail document with a complete profile section, a bond table whose
only row is missing its amount cell, and one charge row. -/
def htmlSparseBonds : Html :=
  { imgSrc := none,
    profileTables := [{
      dts := [some "First:", some "Last:", some "Date of Birth:",
        some "Booking Date Time:"],
      dds := ["John", "Smith", "1990-01-01", "2024-01-02 03:04:05"] }],
    bondRows := [["2024-01-01", "Cash"]],
    chargeRows := [["2024-01-01", "Theft", "Felony", "2024-01-01"]] }

/-- A bond whose minor-units amount does not fit in `i32`. -/
def bondBig : Bond := { bond_type := "Cash", bond_amount := 2 ^ 31 }

/-- `profileW` with a different middle name and no image: agrees with
`profileW` on all four core attributes. -/
def profileWVariant : InmateProfile :=
  { profileW with
    middle_name := some "Quincy", img_blob := none,
    booking_number := some "B-2" }

/-! MARKER-END-OF-DEFINITIONS -/

/-! ## Theorems -/

theorem cents_to_dollars_example : cents_to_dollars 220075 = "$2200.75" := by decide

theorem dollars_to_cents_example : dollars_to_cents "$2,200.75" = 220075 := by decide

/-! ### Correctness of the decimal rendering -/

theorem toNat_digitChar (d : Nat) (h : d < 10) : (digitChar d).toNat = 48 + d := by
  interval_cases d <;> decide

theorem isDigit_digitChar (d : Nat) (h : d < 10) : (digitChar d).isDigit = true := by
  interval_cases d <;> decide

theorem natDigitsAux_val (fuel : Nat) :
    ∀ (n : Nat) (acc : List Char), n < 10 ^ fuel →
      digitsVal (natDigitsAux fuel n acc) =
        acc.foldl (fun a c => a * 10 + (c.toNat - 48)) n := by
  induction fuel with
  | zero =>
    intro n acc h
    have : n = 0 := by simpa using h
    subst this
    rfl
  | succ fuel ih =>
    intro n acc h
    rw [natDigitsAux]
    by_cases hn : n < 10
    · rw [if_pos hn]
      show (digitChar n :: acc).foldl _ 0 = _
      rw [List.foldl_cons, toNat_digitChar n hn]
      congr 1
      omega
    · rw [if_neg hn]
      have hdiv : n / 10 < 10 ^ fuel := by
        rw [Nat.div_lt_iff_lt_mul (by omega)]
        calc n < 10 ^ (fuel + 1) := h
          _ = 10 ^ fuel * 10 := by ring
      rw [ih (n / 10) _ hdiv, List.foldl_cons, toNat_digitChar (n % 10) (by omega)]
      congr 1
      omega

theorem digitsVal_natDigits (n : Nat) : digitsVal (natDigits n) = n := by
  have hlt : n < 10 ^ (n + 1) :=
    lt_of_lt_of_le (Nat.lt_pow_self (by omega) n) (Nat.pow_le_pow_right (by omega) (by omega))
  simpa [digitsVal] using natDigitsAux_val (n + 1) n [] hlt

theorem natDigitsAux_digits (fuel : Nat) :
    ∀ (n : Nat) (acc : List Char), (∀ c ∈ acc, c.isDigit = true) →
      ∀ c ∈ natDigitsAux fuel n acc, c.isDigit = true := by
  induction fuel with
  | zero => intro n acc hacc; exact hacc
  | succ fuel ih =>
    intro n acc hacc c hc
    rw [natDigitsAux] at hc
    by_cases hn : n < 10
    · rw [if_pos hn] at hc
      rcases List.mem_cons.mp hc with h | h
      · subst h; exact isDigit_digitChar n hn
      · exact hacc c h
    · rw [if_neg hn] at hc
      refine ih (n / 10) _ ?_ c hc
      intro c' hc'
      rcases List.mem_cons.mp hc' with h | h
      · subst h; exact isDigit_digitChar (n % 10) (by omega)
      · exact hacc c' h

theorem natDigits_digits (n : Nat) : ∀ c ∈ natDigits n, c.isDigit = true :=
  natDigitsAux_digits (n + 1) n [] (by simp)

theorem natDigitsAux_ne_nil (fuel : Nat) :
    ∀ (n : Nat) (acc : List Char), acc ≠ [] → natDigitsAux fuel n acc ≠ [] := by
  induction fuel with
  | zero => intro n acc h; exact h
  | succ fuel ih =>
    intro n acc h
    rw [natDigitsAux]
    by_cases hn : n < 10
    · rw [if_pos hn]; exact List.cons_ne_nil _ _
    · rw [if_neg hn]; exact ih (n / 10) _ (List.cons_ne_nil _ _)

theorem natDigits_ne_nil (n : Nat) : natDigits n ≠ [] := by
  show natDigitsAux (n + 1) n [] ≠ []
  rw [natDigitsAux]
  by_cases hn : n < 10
  · rw [if_pos hn]; exact List.cons_ne_nil _ _
  · rw [if_neg hn]; exact natDigitsAux_ne_nil n (n / 10) _ (List.cons_ne_nil _ _)

theorem natDigits_two (r : Nat) (h1 : 10 ≤ r) (h2 : r < 100) :
    natDigits r = [digitChar (r / 10), digitChar (r % 10)] := by
  obtain ⟨f, rfl⟩ : ∃ f, r = f + 1 := ⟨r - 1, by omega⟩
  show natDigitsAux (f + 2) (f + 1) [] = _
  rw [natDigitsAux, if_neg (by omega), natDigitsAux, if_pos (by omega)]

theorem pad2Chars_digits (r : Nat) : ∀ c ∈ pad2Chars r, c.isDigit = true := by
  intro c hc
  unfold pad2Chars at hc
  by_cases h : r < 10
  · rw [if_pos h] at hc
    rcases List.mem_cons.mp hc with h' | h'
    · subst h'; decide
    · simp only [List.mem_singleton] at h'
      subst h'; exact isDigit_digitChar r h
  · rw [if_neg h] at hc
    exact natDigits_digits r c hc

theorem foldl_pad2Chars (q r : Nat) (h : r < 100) :
    (pad2Chars r).foldl (fun a c => a * 10 + (c.toNat - 48)) q = q * 100 + r := by
  unfold pad2Chars
  by_cases hr : r < 10
  · rw [if_pos hr]
    simp only [List.foldl_cons, List.foldl_nil, toNat_digitChar r hr]
    have h0 : ('0' : Char).toNat = 48 := by decide
    rw [h0]
    omega
  · rw [if_neg hr, natDigits_two r (by omega) h]
    simp only [List.foldl_cons, List.foldl_nil, toNat_digitChar (r / 10) (by omega),
      toNat_digitChar (r % 10) (by omega)]
    omega

theorem pad2Chars_ne_nil (r : Nat) : pad2Chars r ≠ [] := by
  unfold pad2Chars
  by_cases hr : r < 10
  · rw [if_pos hr]; exact List.cons_ne_nil _ _
  · rw [if_neg hr]; exact natDigits_ne_nil r

theorem filter_cents_to_dollars (a : Nat) :
    (cents_to_dollars a).data.filter Char.isDigit =
      natDigits (a / 100) ++ pad2Chars (a % 100) := by
  show List.filter Char.isDigit ('$' :: (natDigits (a / 100) ++ '.' :: pad2Chars (a % 100))) = _
  rw [List.filter_cons_of_neg (by decide), List.filter_append,
    List.filter_cons_of_neg (by decide),
    List.filter_eq_self.mpr (natDigits_digits (a / 100)),
    List.filter_eq_self.mpr (pad2Chars_digits (a % 100))]

/-- Claim C6: for every unsigned (`u64`) minor-units integer `a`, rendering
it with `cents_to_dollars` and then re-parsing the result with
`dollars_to_cents` (strip non-digits, parse as unsigned) yields `a` back. -/
theorem monetary_roundtrip (a : Nat) (h : a < 2 ^ 64) :
    dollars_to_cents (cents_to_dollars a) = a := by
  have hval : digitsVal (natDigits (a / 100) ++ pad2Chars (a % 100)) = a := by
    unfold digitsVal
    rw [List.foldl_append,
      show (natDigits (a / 100)).foldl (fun acc c => acc * 10 + (c.toNat - 48)) 0 = a / 100
        from digitsVal_natDigits (a / 100),
      foldl_pad2Chars (a / 100) (a % 100) (Nat.mod_lt _ (by omega))]
    omega
  have hne : (natDigits (a / 100) ++ pad2Chars (a % 100)).isEmpty = false := by
    simp [List.isEmpty_iff, pad2Chars_ne_nil]
  simp [dollars_to_cents, filter_cents_to_dollars, hne, hval, h]
  omega

/-- Witness for C6 at the concrete minor-units value 220075. -/
theorem monetary_roundtrip_witness :
    dollars_to_cents (cents_to_dollars 220075) = 220075 :=
  monetary_roundtrip 220075 (by norm_num)


/-! ### C10 — the bond amount is narrowed to i32 -/

/-- Claim C10: when persisting a bond, `serialize_bond` casts the u64
minor-units amount with `as i32`: the stored `amount_pennies` is the
unique integer congruent to the amount modulo 2^32 that lies in the
signed 32-bit range (hence possibly negative), and it equals the
extracted amount exactly when the amount is at most 2^31 - 1. -/
theorem serialize_bond_casts_amount (bond : Bond) (inmate_id : Nat) (tx : Db)
    (h : bond.bond_amount < 2 ^ 64) :
    ∃ tx', serialize_bond bond inmate_id tx = .ok tx' ∧
      tx'.bond = tx.bond ++ [(⟨inmate_id, bond.bond_type, u64_as_i32 bond.bond_amount⟩ : BondRow)] ∧
      u64_as_i32 bond.bond_amount ≡ (bond.bond_amount : Int) [ZMOD (2 ^ 32 : Int)] ∧
      -(2 ^ 31) ≤ u64_as_i32 bond.bond_amount ∧ u64_as_i32 bond.bond_amount < 2 ^ 31 ∧
      (u64_as_i32 bond.bond_amount = (bond.bond_amount : Int) ↔
        bond.bond_amount ≤ 2 ^ 31 - 1) := by
  refine ⟨_, rfl, rfl, ?_, ?_, ?_, ?_⟩
  · simp only [Int.ModEq, u64_as_i32]
    split <;> omega
  · simp only [u64_as_i32]
    split <;> omega
  · simp only [u64_as_i32]
    split <;> omega
  · simp only [u64_as_i32]
    constructor
    · intro heq
      split at heq <;> omega
    · intro hle
      split <;> omega

/-- Witness for C10 at the amount 2^31, which does not fit in `i32`. -/
theorem serialize_bond_casts_amount_witness :
    ∃ tx', serialize_bond bondBig 7 emptyDb = .ok tx' ∧
      tx'.bond = emptyDb.bond ++ [(⟨7, bondBig.bond_type, u64_as_i32 bondBig.bond_amount⟩ : BondRow)] ∧
      u64_as_i32 bondBig.bond_amount ≡ (bondBig.bond_amount : Int) [ZMOD (2 ^ 32 : Int)] ∧
      -(2 ^ 31) ≤ u64_as_i32 bondBig.bond_amount ∧ u64_as_i32 bondBig.bond_amount < 2 ^ 31 ∧
      (u64_as_i32 bondBig.bond_amount = (bondBig.bond_amount : Int) ↔
        bondBig.bond_amount ≤ 2 ^ 31 - 1) :=
  serialize_bond_casts_amount bondBig 7 emptyDb (by norm_num [bondBig])

/-! ### C1 — the composite uniqueness constraint rolls back the record -/

/-- Claim C1: serializing a record whose profile shares the composite
(first_name, last_name, dob, booking_date) key with an already committed
inmate row fails — the insert is rejected by the uniqueness constraint,
the whole per-record transaction rolls back to the original store (so no
bond, charge, alias, join or img row of the record survives), and exactly
one inmate row with that composite key remains. -/
theorem serialize_record_duplicate_rejected (record : Record) (db : Db)
    (aws_s3_client : Option S3Client)
    (h : db.inmate.countP (fun r => sameCoreKey r record.profile) = 1) :
    (serialize_record record db aws_s3_client).1 = .error (.PostgresError dupKeyDetail) ∧
    (serialize_record record db aws_s3_client).2 = db ∧
    ((serialize_record record db aws_s3_client).2.inmate.countP
      (fun r => sameCoreKey r record.profile)) = 1 := by
  have hany : db.inmate.any (fun r => sameCoreKey r record.profile) = true := by
    rw [List.any_eq_true]
    have hpos : 0 < db.inmate.countP (fun r => sameCoreKey r record.profile) := by omega
    exact List.countP_pos_iff.mp hpos
  have hprof : serialize_profile record.profile db aws_s3_client =
      .error (.PostgresError dupKeyDetail) := by
    unfold serialize_profile insertInmate
    simp [hany]
  refine ⟨?_, ?_, ?_⟩ <;> simp [serialize_record, hprof, h]

/-- Witness for C1: `dbDup` already holds `rowDup`, which shares the
composite key of `recordW`'s profile. -/
theorem serialize_record_duplicate_rejected_witness :
    (serialize_record recordW dbDup none).1 = .error (.PostgresError dupKeyDetail) ∧
    (serialize_record recordW dbDup none).2 = dbDup ∧
    ((serialize_record recordW dbDup none).2.inmate.countP
      (fun r => sameCoreKey r recordW.profile)) = 1 :=
  serialize_record_duplicate_rejected recordW dbDup none (by decide)

/-! ### C8 — batch independence -/

theorem serialize_records_counts (records : List Record) :
    ∀ (db : Db) (oai_client : Option OaiClient) (aws_s3_client : Option S3Client),
      (serialize_records records db oai_client aws_s3_client).1 +
        (serialize_records records db oai_client aws_s3_client).2.1 = records.length := by
  induction records with
  | nil => intro db oai s3; simp [serialize_records]
  | cons r rest ih =>
    intro db oai s3
    simp only [serialize_records]
    rcases hx : serialize_record (gather_openai_embedding r oai) db s3 with ⟨res, db2⟩
    obtain ⟨⟨i, f, d⟩, hy⟩ :
        (∃ t, serialize_records rest db2 oai s3 = t) := ⟨_, rfl⟩
    have hcount := ih db2 oai s3
    rw [hy] at hcount
    simp only [Prod.fst, Prod.snd] at hcount
    rcases res with e | v <;> simp only [hy] <;> simp <;> omega

theorem fetchLoop_filterMap (build : BuildOracle) :
    ∀ (ids : List String) (acc : List Record),
      fetchLoop ids build false acc = acc ++ ids.filterMap (fun i => (build i).toOption) := by
  intro ids
  induction ids with
  | nil => intro acc; simp [fetchLoop]
  | cons i rest ih =>
    intro acc
    simp only [fetchLoop]
    rcases hb : build i with e | record <;>
      simp [Except.toOption, ih, List.filterMap_cons, hb]

/-- Claim C8: records are processed independently — the inserted and
failed counters of `serialize_records` always account for every record of
the batch, and with the stop-early flag unset the discovery loop of
`fetch_records` attempts every candidate, returning exactly the
successfully built records in order no matter which of them fail. -/
theorem batch_isolation :
    (∀ (records : List Record) (db : Db) (oai_client : Option OaiClient)
        (aws_s3_client : Option S3Client),
      (serialize_records records db oai_client aws_s3_client).1 +
        (serialize_records records db oai_client aws_s3_client).2.1 = records.length) ∧
    (∀ (ids : List String) (build : BuildOracle),
      fetch_records (.ok ids) build false =
        .ok (ids.filterMap (fun i => (build i).toOption))) :=
  ⟨fun records db oai s3 => serialize_records_counts records db oai s3,
   fun ids build => by simp [fetch_records, fetchLoop_filterMap build ids []]⟩

/-! ### C5 — zero charges is fatal, zero bonds is not -/

/-- Claim C5: `ChargeInformation::build` fails with `ParseError` exactly
when the charges table yields zero rows (and `ParseError` is its only
error), while `BondInformation::build` never fails — in particular a bond
table yielding zero `Bond` rows produces `Ok` with the empty bond list. -/
theorem charges_fatal_bonds_lenient :
    (∀ (html : Html) (now : String),
      (ChargeInformation.build html now = .error .ParseError ↔ html.chargeRows = []) ∧
      ∀ e, ChargeInformation.build html now = .error e → e = .ParseError) ∧
    (∀ html : Html,
      BondInformation.build html = .ok { bonds := html.bondRows.filterMap bondOfRow }) ∧
    (∀ html : Html, html.bondRows.filterMap bondOfRow = [] →
      BondInformation.build html = .ok { bonds := [] }) := by
  refine ⟨?_, fun html => rfl, ?_⟩
  · intro html now
    by_cases hrows : html.chargeRows = []
    · constructor
      · simp [ChargeInformation.build, hrows]
      · intro e he
        simp [ChargeInformation.build, hrows] at he
        exact he.symm
    · constructor
      · simp [ChargeInformation.build, hrows]
      · intro e he
        simp [ChargeInformation.build, hrows] at he
  · intro html h
    simp [BondInformation.build, h]

/-- Witness for C5: a bond table whose single row is missing its amount
cell yields zero bonds and still extracts as `Ok` with the empty list. -/
theorem charges_fatal_bonds_lenient_witness :
    BondInformation.build htmlSparseBonds = .ok { bonds := [] } :=
  charges_fatal_bonds_lenient.2.2 htmlSparseBonds (by decide)

/-! ### C4 — a partially populated profile is never produced -/

theorem applyImgResponse_core (p : InmateProfile)
    (resp : Option (Option (Bool × Option (List UInt8)))) :
    (applyImgResponse p resp).first_name = p.first_name ∧
    (applyImgResponse p resp).last_name = p.last_name ∧
    (applyImgResponse p resp).dob = p.dob ∧
    (applyImgResponse p resp).booking_date_iso8601 = p.booking_date_iso8601 := by
  rcases resp with _ | (_ | ⟨st, _ | blob⟩)
  · simp [applyImgResponse]
  · simp [applyImgResponse]
  · simp [applyImgResponse]
  · cases st <;> simp [applyImgResponse]

/-- Claim C4: profile extraction fails with `ParseError` whenever any of
the four core attributes (first name, last name, date of birth, booking
timestamp) is empty after parsing, `ParseError` is the only error it
produces, and neither `InmateProfile::build` nor `Record::build` ever
returns a profile with an empty core attribute. -/
theorem extraction_requires_core_attributes (html : Html) (sys_id : String)
    (client : ImgClient) :
    (((InmateProfile.set_core_profile_data (initialProfile sys_id) html).first_name = "" ∨
      (InmateProfile.set_core_profile_data (initialProfile sys_id) html).last_name = "" ∨
      (InmateProfile.set_core_profile_data (initialProfile sys_id) html).dob = "" ∨
      (InmateProfile.set_core_profile_data (initialProfile sys_id) html).booking_date_iso8601
        = "") →
      InmateProfile.build html sys_id client = .error .ParseError) ∧
    (∀ e, InmateProfile.build html sys_id client = .error e → e = .ParseError) ∧
    (∀ p, InmateProfile.build html sys_id client = .ok p →
      p.first_name ≠ "" ∧ p.last_name ≠ "" ∧ p.dob ≠ "" ∧ p.booking_date_iso8601 ≠ "") ∧
    (∀ (now : String) (r : Record), Record.build client sys_id html now = .ok r →
      r.profile.first_name ≠ "" ∧ r.profile.last_name ≠ "" ∧ r.profile.dob ≠ "" ∧
      r.profile.booking_date_iso8601 ≠ "") := by
  have hbuild : InmateProfile.build html sys_id client =
      (if (applyImgResponse (InmateProfile.set_core_profile_data (initialProfile sys_id) html)
            (match html.imgSrc with
             | some img_url => some (client ("https:" ++ img_url))
             | none => none)).first_name == "" ||
          (applyImgResponse (InmateProfile.set_core_profile_data (initialProfile sys_id) html)
            (match html.imgSrc with
             | some img_url => some (client ("https:" ++ img_url))
             | none => none)).last_name == "" ||
          (applyImgResponse (InmateProfile.set_core_profile_data (initialProfile sys_id) html)
            (match html.imgSrc with
             | some img_url => some (client ("https:" ++ img_url))
             | none => none)).dob == "" ||
          (applyImgResponse (InmateProfile.set_core_profile_data (initialProfile sys_id) html)
            (match html.imgSrc with
             | some img_url => some (client ("https:" ++ img_url))
             | none => none)).booking_date_iso8601 == "" then
        .error .ParseError
      else
        .ok (applyImgResponse (InmateProfile.set_core_profile_data (initialProfile sys_id) html)
            (match html.imgSrc with
             | some img_url => some (client ("https:" ++ img_url))
             | none => none))) := rfl
  obtain ⟨h1, h2, h3, h4⟩ := applyImgResponse_core
    (InmateProfile.set_core_profile_data (initialProfile sys_id) html)
    (match html.imgSrc with
      | some img_url => some (client ("https:" ++ img_url))
      | none => none)
  have hok : ∀ p, InmateProfile.build html sys_id client = .ok p →
      p.first_name ≠ "" ∧ p.last_name ≠ "" ∧ p.dob ≠ "" ∧ p.booking_date_iso8601 ≠ "" := by
    intro p hp
    rw [hbuild] at hp
    split at hp
    · exact absurd hp (by simp)
    · next hcond =>
      simp only [Bool.or_eq_true, beq_iff_eq, not_or] at hcond
      push_neg at hcond
      cases hp
      obtain ⟨⟨⟨hf, hl⟩, hd⟩, hb⟩ := hcond
      exact ⟨hf, hl, hd, hb⟩
  refine ⟨?_, ?_, hok, ?_⟩
  · intro hcore
    rw [hbuild]
    split
    · rfl
    · next hcond =>
      simp only [Bool.or_eq_true, beq_iff_eq, not_or] at hcond
      push_neg at hcond
      rw [h1, h2, h3, h4] at hcond
      obtain ⟨⟨⟨hf, hl⟩, hd⟩, hb⟩ := hcond
      rcases hcore with h | h | h | h
      · exact absurd h hf
      · exact absurd h hl
      · exact absurd h hd
      · exact absurd h hb
  · intro e he
    rw [hbuild] at he
    split at he
    · cases he; rfl
    · exact absurd he (by simp)
  · intro now r hr
    unfold Record.build at hr
    split at hr
    · exact absurd hr (by simp)
    · next profile hprofile =>
      split at hr
      · exact absurd hr (by simp)
      · split at hr
        · exact absurd hr (by simp)
        · next charges hcharges =>
          cases hr
          exact hok profile hprofile

/-- Witness for C4: a document whose profile section is missing the
`Date of Birth:` label extracts to `ParseError`. -/
theorem extraction_requires_core_attributes_witness :
    InmateProfile.build htmlMissingDob "&sysid=9" clientNone = .error .ParseError :=
  (extraction_requires_core_attributes htmlMissingDob "&sysid=9" clientNone).1 (by decide)


/-! ### C3 — the incremental filter partition -/

theorem mem_insertSet (bl : List String) (s x : String) :
    x ∈ insertSet bl s ↔ x ∈ bl ∨ x = s := by
  unfold insertSet
  split
  · next hmem =>
    constructor
    · exact fun h => Or.inl h
    · rintro (h | rfl)
      · exact h
      · exact hmem
  · simp [List.mem_append]

theorem mem_insertMap_keys (s x : String) (v : Nat) :
    ∀ ul : List (String × Nat),
      x ∈ (insertMap ul s v).map Prod.fst ↔ x ∈ ul.map Prod.fst ∨ x = s := by
  intro ul
  induction ul with
  | nil => simp [insertMap]
  | cons p t ih =>
    obtain ⟨k, w⟩ := p
    simp only [insertMap]
    by_cases hks : k = s
    · subst hks
      rw [if_pos rfl]
      simp only [List.map_cons, List.mem_cons]
      tauto
    · rw [if_neg hks]
      simp only [List.map_cons, List.mem_cons, ih]
      tauto

theorem blacklistLoop_mem (rows : List InmateRow) :
    ∀ (acc : List String × List (String × Nat)) (x : String),
      (x ∈ (blacklistLoop rows acc).1 ↔
        x ∈ acc.1 ∨ ∃ r ∈ rows, r.scil_sysid = some x ∧ imgUrlMissing r = false) ∧
      (x ∈ (blacklistLoop rows acc).2.map Prod.fst ↔
        x ∈ acc.2.map Prod.fst ∨
          ∃ r ∈ rows, r.scil_sysid = some x ∧ imgUrlMissing r = true) := by
  induction rows with
  | nil => intro acc x; simp [blacklistLoop]
  | cons r rest ih =>
    intro acc x
    simp only [blacklistLoop]
    rcases hsys : r.scil_sysid with _ | s
    · obtain ⟨ih1, ih2⟩ := ih acc x
      rw [ih1, ih2]
      simp [hsys]
    · simp only [hsys]
      by_cases hmiss : imgUrlMissing r = true
    
      · rw [if_pos hmiss]
        obtain ⟨ih1, ih2⟩ := ih (acc.1, insertMap acc.2 s r.id) x
        rw [ih1, ih2]
        simp only [mem_insertMap_keys, List.exists_mem_cons_iff, hsys, hmiss,
          Option.some.injEq, Bool.true_eq_false, and_false, false_or, and_true]
        refine ⟨trivial, ?_⟩
        constructor
        · rintro ((h | rfl) | h)
          · exact Or.inl h
          · exact Or.inr (Or.inl rfl)
          · exact Or.inr (Or.inr h)
        · rintro (h | rfl | h)
          · exact Or.inl (Or.inl h)
          · exact Or.inl (Or.inr rfl)
          · exact Or.inr h
      · have hmiss' : imgUrlMissing r = false := by
          revert hmiss
          cases imgUrlMissing r <;> simp
        rw [if_neg hmiss]
        obtain ⟨ih1, ih2⟩ := ih (insertSet acc.1 s, acc.2) x
        rw [ih1, ih2]
        simp only [mem_insertSet, List.exists_mem_cons_iff, hsys, hmiss',
          Option.some.injEq, Bool.false_eq_true, and_false, false_or, and_true]
        constructor
        · rintro ((h | rfl) | h)
          · exact Or.inl h
          · exact Or.inr (Or.inl rfl)
          · exact Or.inr (Or.inr h)
        · rintro (h | rfl | h)
          · exact Or.inl (Or.inl h)
          · exact Or.inl (Or.inr rfl)
          · exact Or.inr h

theorem nodup_filterMap_eq {α β : Type _} (f : α → Option β) :
    ∀ l : List α, (l.filterMap f).Nodup →
      ∀ a ∈ l, ∀ b ∈ l, ∀ s, f a = some s → f b = some s → a = b := by
  intro l
  induction l with
  | nil => intro _ a ha; exact absurd ha (List.not_mem_nil a)
  | cons x t ih =>
    intro h a ha b hb s hfa hfb
    rcases hx : f x with _ | y
    · rw [List.filterMap_cons_none hx] at h
      rcases List.mem_cons.mp ha with rfl | ha'
      · rw [hx] at hfa
        exact absurd hfa (by simp)
      · rcases List.mem_cons.mp hb with rfl | hb'
        · rw [hx] at hfb
          exact absurd hfb (by simp)
        · exact ih h a ha' b hb' s hfa hfb
    · rw [List.filterMap_cons_some hx] at h
      have hy_not : y ∉ t.filterMap f := (List.nodup_cons.mp h).1
      have ht : (t.filterMap f).Nodup := (List.nodup_cons.mp h).2
      rcases List.mem_cons.mp ha with rfl | ha'
      · rcases List.mem_cons.mp hb with rfl | hb'
        · rfl
        · rw [hx] at hfa
          obtain rfl : y = s := by injection hfa
          exact absurd (List.mem_filterMap.mpr ⟨b, hb', hfb⟩) hy_not
      · rcases List.mem_cons.mp hb with rfl | hb'
        · rw [hx] at hfb
          obtain rfl : y = s := by injection hfb
          exact absurd (List.mem_filterMap.mpr ⟨a, ha', hfa⟩) hy_not
        · exact ih ht a ha' b hb' s hfa hfb

/-- Claim C3 (amended): provided the non-null natural keys of the examined
rows are pairwise distinct, the incremental filter examines the `n` most
recently persisted rows (descending identity) and returns two disjoint
key sets — a row with a natural key lands in the updatelist exactly when
its `img_url` is null or empty and in the blacklist exactly otherwise,
and a row with a null natural key lands in neither. -/
theorem incremental_filter_partition (n : Nat) (db : Db)
    (hnd : ((recentRows n db).filterMap InmateRow.scil_sysid).Nodup) :
    (∀ s, s ∈ (get_blacklist_and_updatelist n db).1 ↔
      ∃ r ∈ recentRows n db, r.scil_sysid = some s ∧ imgUrlMissing r = false) ∧
    (∀ s, s ∈ (get_blacklist_and_updatelist n db).2.map Prod.fst ↔
      ∃ r ∈ recentRows n db, r.scil_sysid = some s ∧ imgUrlMissing r = true) ∧
    (∀ s, ¬(s ∈ (get_blacklist_and_updatelist n db).1 ∧
      s ∈ (get_blacklist_and_updatelist n db).2.map Prod.fst)) := by
  have hbase : ∀ s : String,
      (s ∈ (get_blacklist_and_updatelist n db).1 ↔
        ∃ r ∈ recentRows n db, r.scil_sysid = some s ∧ imgUrlMissing r = false) ∧
      (s ∈ (get_blacklist_and_updatelist n db).2.map Prod.fst ↔
        ∃ r ∈ recentRows n db, r.scil_sysid = some s ∧ imgUrlMissing r = true) := by
    intro s
    have h := blacklistLoop_mem (recentRows n db) ([], []) s
    simpa [get_blacklist_and_updatelist] using h
  refine ⟨fun s => (hbase s).1, fun s => (hbase s).2, ?_⟩
  rintro s ⟨hbl, hul⟩
  obtain ⟨r1, hr1, hs1, hm1⟩ := (hbase s).1.mp hbl
  obtain ⟨r2, hr2, hs2, hm2⟩ := (hbase s).2.mp hul
  have : r1 = r2 :=
    nodup_filterMap_eq InmateRow.scil_sysid (recentRows n db) hnd r1 hr1 r2 hr2 s hs1 hs2
  subst this
  rw [hm1] at hm2
  exact absurd hm2 (by simp)

/-- Counterexample to C3 as stated: when two of the examined rows share
the natural key "a" — one synchronized, one with a null image URL — the
blacklist and the updatelist both contain "a", so the two sets are not
disjoint. -/
theorem incremental_filter_shared_key_overlap :
    "a" ∈ (get_blacklist_and_updatelist 2 dbSharedKey).1 ∧
    "a" ∈ (get_blacklist_and_updatelist 2 dbSharedKey).2.map Prod.fst := by decide

/-- Witness for the amended C3 at a store whose recent rows carry the
distinct natural keys "a" and "b". -/
theorem incremental_filter_partition_witness :
    ¬("a" ∈ (get_blacklist_and_updatelist 2 dbDistinctKeys).1 ∧
      "a" ∈ (get_blacklist_and_updatelist 2 dbDistinctKeys).2.map Prod.fst) :=
  (incremental_filter_partition 2 dbDistinctKeys (by decide)).2.2 "a"

/-! ### C7 — alias parsing -/

theorem dropWhile_idem {α : Type _} (p : α → Bool) :
    ∀ l : List α, (l.dropWhile p).dropWhile p = l.dropWhile p := by
  intro l
  induction l with
  | nil => rfl
  | cons a t ih =>
    rw [List.dropWhile_cons]
    by_cases hpa : p a = true
    · rw [if_pos hpa, ih]
    · rw [if_neg hpa, List.dropWhile_cons, if_neg hpa]

theorem dropWhile_eq_drop {α : Type _} (p : α → Bool) :
    ∀ l : List α, ∃ k, l.dropWhile p = l.drop k := by
  intro l
  induction l with
  | nil => exact ⟨0, rfl⟩
  | cons a t ih =>
    rw [List.dropWhile_cons]
    by_cases hpa : p a = true
    · obtain ⟨k, hk⟩ := ih
      exact ⟨k + 1, by rw [if_pos hpa, hk]; rfl⟩
    · exact ⟨0, by rw [if_neg hpa]; rfl⟩

theorem dropWhile_take_of_fix {α : Type _} (p : α → Bool) (l : List α) (k : Nat)
    (h : l.dropWhile p = l) : (l.take k).dropWhile p = l.take k := by
  cases l with
  | nil => simp
  | cons a t =>
    have hpa : p a = false := by
      by_contra hp
      have hp' : p a = true := by
        revert hp
        cases p a <;> simp
      rw [List.dropWhile_cons, if_pos hp'] at h
      obtain ⟨j, hj⟩ := dropWhile_eq_drop p t
      rw [hj] at h
      have hlen := congrArg List.length h
      simp [List.length_drop] at hlen
      omega
    cases k with
    | zero => simp
    | succ k =>
      rw [List.take_succ_cons, List.dropWhile_cons, if_neg (by simp [hpa])]

theorem dropTrailingWs_idem (l : List Char) :
    dropTrailingWs (dropTrailingWs l) = dropTrailingWs l := by
  unfold dropTrailingWs
  rw [List.reverse_reverse, dropWhile_idem]

theorem dropTrailingWs_take (l : List Char) : ∃ k, dropTrailingWs l = l.take k := by
  obtain ⟨j, hj⟩ := dropWhile_eq_drop isWs l.reverse
  refine ⟨l.length - j, ?_⟩
  unfold dropTrailingWs
  rw [hj, List.reverse_drop, List.reverse_reverse, List.length_reverse]

theorem trimChars_idem (l : List Char) : trimChars (trimChars l) = trimChars l := by
  unfold trimChars
  have hfix : (dropLeadingWs l).dropWhile isWs = dropLeadingWs l := by
    unfold dropLeadingWs
    exact dropWhile_idem isWs l
  obtain ⟨k, hk⟩ := dropTrailingWs_take (dropLeadingWs l)
  have hlead : dropLeadingWs (dropTrailingWs (dropLeadingWs l)) =
      dropTrailingWs (dropLeadingWs l) := by
    rw [hk]
    exact dropWhile_take_of_fix isWs (dropLeadingWs l) k hfix
  rw [hlead, dropTrailingWs_idem]

theorem trimChars_eq_nil_of_all_ws (l : List Char) (h : ∀ c ∈ l, isWs c = true) :
    trimChars l = [] := by
  unfold trimChars dropLeadingWs
  rw [List.dropWhile_eq_nil_iff.mpr h]
  rfl

theorem splitOnChar_ne_nil (sep : Char) (l : List Char) : splitOnChar sep l ≠ [] := by
  cases l with
  | nil => simp [splitOnChar]
  | cons a t =>
    rw [splitOnChar]
    by_cases ha : a = sep
    · rw [if_pos ha]
      simp
    · rw [if_neg ha]
      rcases hs : splitOnChar sep t with _ | ⟨q, qs⟩ <;> simp

theorem splitOnChar_chars (sep : Char) :
    ∀ l : List Char, ∀ p ∈ splitOnChar sep l, ∀ c ∈ p, c ∈ l ∧ ¬c = sep := by
  intro l
  induction l with
  | nil =>
    intro p hp c hc
    simp [splitOnChar] at hp
    subst hp
    exact absurd hc (List.not_mem_nil c)
  | cons a t ih =>
    intro p hp c hc
    rw [splitOnChar] at hp
    by_cases ha : a = sep
    · rw [if_pos ha] at hp
      rcases List.mem_cons.mp hp with rfl | hp'
      · exact absurd hc (List.not_mem_nil c)
      · obtain ⟨hct, hcs⟩ := ih p hp' c hc
        exact ⟨List.mem_cons_of_mem a hct, hcs⟩
    · rw [if_neg ha] at hp
      rcases hs : splitOnChar sep t with _ | ⟨q, qs⟩
      · exact absurd hs (splitOnChar_ne_nil sep t)
      · rw [hs] at hp
        rcases List.mem_cons.mp hp with rfl | hp'
        · rcases List.mem_cons.mp hc with rfl | hcq
          · exact ⟨List.mem_cons_self c t, ha⟩
          · obtain ⟨hct, hcs⟩ := ih q (hs ▸ List.mem_cons_self q qs) c hcq
            exact ⟨List.mem_cons_of_mem a hct, hcs⟩
        · obtain ⟨hct, hcs⟩ := ih p (hs ▸ List.mem_cons_of_mem q hp') c hc
          exact ⟨List.mem_cons_of_mem a hct, hcs⟩

/-- Counterexample to C7 as stated: `get_aliases` does not deduplicate —
an alias text repeating "John Doe" yields a list containing it twice, so
the result is not a set without duplicates (deduplication only happens
later, in the serializer's `unique()` pass). -/
theorem get_aliases_keeps_duplicates :
    InmateProfile.get_aliases "John Doe, John Doe" = some ["John Doe", "John Doe"] ∧
    ¬(["John Doe", "John Doe"] : List String).Nodup := by
  constructor
  · decide
  · decide

/-- Claim C7 (amended): `get_aliases` splits on commas, trims each piece,
drops the empty pieces and returns the survivors in input order (possibly
with duplicates); when no piece survives it returns `none`, never an
empty list; in particular the spec's two concrete examples hold. -/
theorem get_aliases_spec :
    (InmateProfile.get_aliases "John Doe, , , Jane Doe,    Marty McFly,  " =
      some ["John Doe", "Jane Doe", "Marty McFly"]) ∧
    (∀ s : String, (∀ c ∈ s.data, c = ',' ∨ isWs c = true) →
      InmateProfile.get_aliases s = none) ∧
    (∀ (s : String) (l : List String), InmateProfile.get_aliases s = some l →
      l ≠ [] ∧ ∀ x ∈ l, x ≠ "" ∧ trimS x = x) := by
  refine ⟨by decide, ?_, ?_⟩
  · intro s hs
    have hall : ((splitOnChar ',' s.data).map
        (fun p => (⟨trimChars p⟩ : String))).filter (fun t => !(t == "")) = [] := by
      rw [List.filter_eq_nil_iff]
      intro t ht
      obtain ⟨p, hp, rfl⟩ := List.mem_map.mp ht
      have htrim : trimChars p = [] := by
        refine trimChars_eq_nil_of_all_ws p (fun c hc => ?_)
        obtain ⟨hcs, hcsep⟩ := splitOnChar_chars ',' s.data p hp c hc
        rcases hs c hcs with h | h
        · exact absurd h hcsep
        · exact h
      simp [htrim]
  
    unfold InmateProfile.get_aliases
    rw [hall]
  · intro s l hl
    unfold InmateProfile.get_aliases at hl
    rcases hv : ((splitOnChar ',' s.data).map
        (fun p => (⟨trimChars p⟩ : String))).filter (fun t => !(t == "")) with _ | ⟨x0, rest⟩
    · rw [hv] at hl
      exact absurd hl (by simp)
    · rw [hv] at hl
      have hlv : l = x0 :: rest := by
        injection hl with h
        exact h.symm
      subst hlv
      refine ⟨by simp, ?_⟩
      intro x hx
      have hxf : x ∈ ((splitOnChar ',' s.data).map
          (fun p => (⟨trimChars p⟩ : String))).filter (fun t => !(t == "")) := by
        rw [hv]
        exact hx
      obtain ⟨hxm, hxne⟩ := List.mem_filter.mp hxf
      obtain ⟨p, _, rfl⟩ := List.mem_map.mp hxm
      constructor
      · intro hcon
        rw [hcon] at hxne
        simp at hxne
      · show (⟨trimChars (⟨trimChars p⟩ : String).data⟩ : String) = _
        rw [show (⟨trimChars p⟩ : String).data = trimChars p from rfl, trimChars_idem]

/-- Witness for the amended C7 at an input of only commas and blanks. -/
theorem get_aliases_spec_witness :
    InmateProfile.get_aliases " ,  ,," = none :=
  get_aliases_spec.2.1 " ,  ,," (by decide)

/-! ### C2 and C9 — the serializer's success path -/

theorem nodup_append_singleton {α : Type _} (l : List α) (x : α)
    (hl : l.Nodup) (hx : x ∉ l) : (l ++ [x]).Nodup := by
  rw [List.nodup_append]
  exact ⟨hl, List.nodup_singleton x, List.disjoint_singleton.mpr hx⟩

theorem dedupFirst_nodup (l : List String) : (dedupFirst l).Nodup := by
  suffices h : ∀ (l acc : List String), acc.Nodup →
      (l.foldl (fun acc s => if s ∈ acc then acc else acc ++ [s]) acc).Nodup from
    h l [] List.nodup_nil
  intro l
  induction l with
  | nil => intro acc h; exact h
  | cons a t ih =>
    intro acc hacc
    simp only [List.foldl_cons]
    by_cases hmem : a ∈ acc
    · rw [if_pos hmem]
      exact ih acc hacc
    · rw [if_neg hmem]
      exact ih _ (nodup_append_singleton acc a hacc hmem)

theorem aliasJoinLoop_ok (inmate_id : Nat) :
    ∀ (aliases : List String) (tx : Db),
      (∀ a ∈ tx.alias_rows, a.id < tx.nextAliasId) →
      (tx.alias_rows.map AliasRow.id).Nodup →
      (tx.alias_rows.map AliasRow.alias_text).Nodup →
      aliases.Nodup →
      (∀ s ∈ aliases, s ≠ "" → ∀ r ∈ tx.alias_rows, r.alias_text = s →
        (inmate_id, r.id) ∉ tx.inmate_alias) →
      (∀ k, tx.nextAliasId ≤ k → (inmate_id, k) ∉ tx.inmate_alias) →
      ∃ tx', aliasJoinLoop aliases inmate_id tx = .ok tx' ∧
        tx'.inmate = tx.inmate ∧ tx'.img = tx.img ∧ tx'.bond = tx.bond ∧
        tx'.charge = tx.charge ∧ tx'.nextInmateId = tx.nextInmateId := by
  intro aliases
  induction aliases with
  | nil =>
    intro tx _ _ _ _ _ _
    exact ⟨tx, rfl, rfl, rfl, rfl, rfl, rfl⟩
  | cons a rest ih =>
    intro tx hidlt hidnd htxtnd hnd hP1 hP2
    by_cases ha : a = ""
    · rw [aliasJoinLoop, if_pos (by simp [ha])]
      exact ih tx hidlt hidnd htxtnd (List.nodup_cons.mp hnd).2
        (fun s hs => hP1 s (List.mem_cons_of_mem a hs)) hP2
    · have haf : (a == "") = false := by simp [ha]
      rcases hfind : tx.alias_rows.find? (fun r => r.alias_text == a) with _ | r
      · -- alias not in the table: fresh alias row plus join row
        have hnotin : (inmate_id, tx.nextAliasId) ∉ tx.inmate_alias :=
          hP2 tx.nextAliasId (Nat.le_refl _)
        have hatext : ∀ x ∈ tx.alias_rows, ¬x.alias_text = a := by
          intro x hx hcon
          exact absurd (by simp [hcon] : (x.alias_text == a) = true)
            (List.find?_eq_none.mp hfind x hx)
        have hstep : aliasJoinLoop (a :: rest) inmate_id tx =
            aliasJoinLoop rest inmate_id
              { tx with
                alias_rows := tx.alias_rows ++
                  [({ id := tx.nextAliasId, alias_text := a } : AliasRow)],
                nextAliasId := tx.nextAliasId + 1,
                inmate_alias := tx.inmate_alias ++ [(inmate_id, tx.nextAliasId)] } := by
          rw [aliasJoinLoop, if_neg (by simp [ha])]
          unfold serialize_alias
          rw [if_neg (by simp [ha]), hfind]
          simp only []
          rw [if_neg hnotin]
        rw [hstep]
        obtain ⟨tx', hloop, h1, h2, h3, h4, h5⟩ := ih
          { tx with
            alias_rows := tx.alias_rows ++
              [({ id := tx.nextAliasId, alias_text := a } : AliasRow)],
            nextAliasId := tx.nextAliasId + 1,
            inmate_alias := tx.inmate_alias ++ [(inmate_id, tx.nextAliasId)] }
          (by
            intro x hx
            rcases List.mem_append.mp hx with hx' | hx'
            · exact Nat.lt_succ_of_lt (hidlt x hx')
            · simp only [List.mem_singleton] at hx'
              subst hx'
              exact Nat.lt_succ_self _)
          (by
            simp only [List.map_append, List.map_cons, List.map_nil]
            refine nodup_append_singleton _ _ hidnd ?_
            intro hcon
            obtain ⟨x, hx, hxid⟩ := List.mem_map.mp hcon
            exact absurd hxid (Nat.ne_of_lt (hidlt x hx)))
          (by
            simp only [List.map_append, List.map_cons, List.map_nil]
            refine nodup_append_singleton _ _ htxtnd ?_
            intro hcon
            obtain ⟨x, hx, hxt⟩ := List.mem_map.mp hcon
            exact hatext x hx hxt)
          (List.nodup_cons.mp hnd).2
          (by
            intro s hs hsne r' hr' hr't hmem
            rcases List.mem_append.mp hr' with hr'' | hr''
            · rcases List.mem_append.mp hmem with hm | hm
              · exact hP1 s (List.mem_cons_of_mem a hs) hsne r' hr'' hr't hm
              · simp only [List.mem_singleton, Prod.mk.injEq] at hm
                exact absurd hm.2 (Nat.ne_of_lt (hidlt r' hr''))
            · simp only [List.mem_singleton] at hr''
              subst hr''
              have hr'2 : a = s := hr't
              rw [← hr'2] at hs
              exact absurd hs (List.nodup_cons.mp hnd).1)
          (by
            intro k hk hmem
            have hk' : tx.nextAliasId + 1 ≤ k := hk
            rcases List.mem_append.mp hmem with hm | hm
            · exact hP2 k (by omega) hm
            · simp only [List.mem_singleton, Prod.mk.injEq] at hm
              omega)
        exact ⟨tx', hloop, h1, h2, h3, h4, h5⟩
      · -- alias already present: only the join row is inserted
        have hrmem : r ∈ tx.alias_rows := List.mem_of_find?_eq_some hfind
        have hrtext : r.alias_text = a := by
          have := List.find?_some hfind
          simpa using this
        have hnotin : (inmate_id, r.id) ∉ tx.inmate_alias :=
          hP1 a (List.mem_cons_self a rest) ha r hrmem hrtext
        have hstep : aliasJoinLoop (a :: rest) inmate_id tx =
            aliasJoinLoop rest inmate_id
              { tx with inmate_alias := tx.inmate_alias ++ [(inmate_id, r.id)] } := by
          rw [aliasJoinLoop, if_neg (by simp [ha])]
          unfold serialize_alias
          rw [if_neg (by simp [ha]), hfind]
          simp only []
          rw [if_neg hnotin]
        rw [hstep]
        obtain ⟨tx', hloop, h1, h2, h3, h4, h5⟩ := ih
          { tx with inmate_alias := tx.inmate_alias ++ [(inmate_id, r.id)] }
          hidlt hidnd htxtnd (List.nodup_cons.mp hnd).2
          (by
            intro s hs hsne r' hr' hr't hmem
            rcases List.mem_append.mp hmem with hm | hm
            · exact hP1 s (List.mem_cons_of_mem a hs) hsne r' hr' hr't hm
            · simp only [List.mem_singleton, Prod.mk.injEq] at hm
              have hr'r : r' = r := List.inj_on_of_nodup_map hidnd hr' hrmem hm.2
              rw [hr'r, hrtext] at hr't
              rw [← hr't] at hs
              exact absurd hs (List.nodup_cons.mp hnd).1)
          (by
            intro k hk hmem
            have hk' : tx.nextAliasId ≤ k := hk
            rcases List.mem_append.mp hmem with hm | hm
            · exact hP2 k hk' hm
            · simp only [List.mem_singleton, Prod.mk.injEq] at hm
              have := hidlt r hrmem
              omega)
        exact ⟨tx', hloop, h1, h2, h3, h4, h5⟩

theorem aliasJoinLoop_ok_of_WF (db : Db) (hwf : Db.WF db) (aliases : List String)
    (hnd : aliases.Nodup) (tx : Db)
    (hal : tx.alias_rows = db.alias_rows) (hja : tx.inmate_alias = db.inmate_alias)
    (hna : tx.nextAliasId = db.nextAliasId) :
    ∃ tx', aliasJoinLoop aliases db.nextInmateId tx = .ok tx' ∧
      tx'.inmate = tx.inmate ∧ tx'.img = tx.img ∧ tx'.bond = tx.bond ∧
      tx'.charge = tx.charge ∧ tx'.nextInmateId = tx.nextInmateId := by
  obtain ⟨hwf1, hwf2, hwf3, hwf4, hwf5⟩ := hwf
  refine aliasJoinLoop_ok db.nextInmateId aliases tx ?_ ?_ ?_ hnd ?_ ?_
  · rw [hal, hna]
    exact hwf3
  · rw [hal]
    exact hwf4
  · rw [hal]
    exact hwf5
  · intro s _ _ r _ _ hmem
    rw [hja] at hmem
    exact absurd rfl (Nat.ne_of_lt (hwf2 _ hmem))
  · intro k _ hmem
    rw [hja] at hmem
    exact absurd rfl (Nat.ne_of_lt (hwf2 _ hmem))

theorem insertedRow_core (profile : InmateProfile) (id : Nat) (u : String) :
    (insertedRow profile id u).id = id ∧
    (insertedRow profile id u).img_url = some u ∧
    (insertedRow profile id u).first_name = profile.first_name ∧
    (insertedRow profile id u).last_name = profile.last_name ∧
    (insertedRow profile id u).dob = profile.dob ∧
    (insertedRow profile id u).booking_date = profile.booking_date_iso8601 :=
  ⟨rfl, rfl, rfl, rfl, rfl, rfl⟩

theorem serialize_profile_ok (profile : InmateProfile) (db : Db)
    (aws_s3_client : Option S3Client) (hwf : Db.WF db)
    (hfn : profile.first_name ≠ "") (hln : profile.last_name ≠ "")
    (hnodup : db.inmate.any (fun r => sameCoreKey r profile) = false) :
    ∃ tx, serialize_profile profile db aws_s3_client = .ok (db.nextInmateId, tx) ∧
      tx.inmate = db.inmate ++
        [insertedRow profile db.nextInmateId (finalImgUrl profile aws_s3_client)] := by
  have hwf2 := hwf
  obtain ⟨hwfa, hwfb, hwfc, hwfd, hwfe⟩ := hwf2
  have hinsEq : ∀ u : String, insertInmate profile u db = .ok (db.nextInmateId,
      { db with
        inmate := db.inmate ++ [insertedRow profile db.nextInmateId u],
        nextInmateId := db.nextInmateId + 1 }) := by
    intro u
    unfold insertInmate
    rw [if_neg (by simp [hnodup]), if_neg (by simp [hfn, hln])]
  rcases aws_s3_client with _ | client
  · have hcrit : has_s3_upload_criteria profile none = false := by
      simp [has_s3_upload_criteria]
    have hfinal : finalImgUrl profile none = "" := by
      rw [finalImgUrl, if_neg (by simp [hcrit])]
    have hstep : serialize_profile profile db none =
        match aliasJoinLoop (dedupFirst (profile.aliases.getD [])) db.nextInmateId
            { db with
              inmate := db.inmate ++ [insertedRow profile db.nextInmateId ""],
              nextInmateId := db.nextInmateId + 1 } with
        | .error e => .error e
        | .ok tx => .ok (db.nextInmateId,
            { tx with img := tx.img ++
              [{ inmate_id := db.nextInmateId, img := profile.img_blob }] }) := by
      unfold serialize_profile
      rw [hcrit]
      simp only [Bool.false_eq_true, if_false]
      rw [hinsEq ""]
    obtain ⟨tx', hloop, h1, h2, h3, h4, h5⟩ :=
      aliasJoinLoop_ok_of_WF db hwf (dedupFirst (profile.aliases.getD []))
        (dedupFirst_nodup _)
        { db with
          inmate := db.inmate ++ [insertedRow profile db.nextInmateId ""],
          nextInmateId := db.nextInmateId + 1 } rfl rfl rfl
    refine ⟨{ tx' with img := tx'.img ++
        [{ inmate_id := db.nextInmateId, img := profile.img_blob }] }, ?_, ?_⟩
    · rw [hstep, hloop]
    · show tx'.inmate = _
      rw [h1, hfinal]
  · by_cases hcrit : has_s3_upload_criteria profile (some client) = true
    · by_cases hput :
        client.put profile.get_hash_on_core_attributes (profile.img_blob.getD []) = true
      · have hfinal : finalImgUrl profile (some client) =
            profile.get_hash_on_core_attributes := by
          rw [finalImgUrl, if_pos hcrit]
          simp only [hput, if_true]
        have hstep : serialize_profile profile db (some client) =
            match aliasJoinLoop (dedupFirst (profile.aliases.getD [])) db.nextInmateId
                { db with
                  inmate := db.inmate ++
                    [insertedRow profile db.nextInmateId
                      profile.get_hash_on_core_attributes],
                  nextInmateId := db.nextInmateId + 1 } with
            | .error e => .error e
            | .ok tx => .ok (db.nextInmateId,
                { tx with img := tx.img ++
                  [{ inmate_id := db.nextInmateId, img := profile.img_blob }] }) := by
          unfold serialize_profile
          rw [hcrit]
          simp only [if_true]
          rw [hinsEq profile.get_hash_on_core_attributes]
          simp only [hcrit, if_true, hput]
        obtain ⟨tx', hloop, h1, h2, h3, h4, h5⟩ :=
          aliasJoinLoop_ok_of_WF db hwf (dedupFirst (profile.aliases.getD []))
            (dedupFirst_nodup _)
            { db with
              inmate := db.inmate ++ [insertedRow profile db.nextInmateId profile.get_hash_on_core_attributes],
              nextInmateId := db.nextInmateId + 1 } rfl rfl rfl
        refine ⟨{ tx' with img := tx'.img ++
            [{ inmate_id := db.nextInmateId, img := profile.img_blob }] }, ?_, ?_⟩
        · rw [hstep, hloop]
        · show tx'.inmate = _
          rw [h1, hfinal]
      · have hputf : client.put profile.get_hash_on_core_attributes
            (profile.img_blob.getD []) = false := by
          revert hput
          cases client.put profile.get_hash_on_core_attributes (profile.img_blob.getD []) <;>
            simp
        have hfinal : finalImgUrl profile (some client) = "" := by
          rw [finalImgUrl, if_pos hcrit]
          simp only [hputf, Bool.false_eq_true, if_false]
        have hmapclear :
            (db.inmate ++
              [insertedRow profile db.nextInmateId profile.get_hash_on_core_attributes]).map
                (fun r => if r.id = db.nextInmateId then { r with img_url := some "" } else r) =
            db.inmate ++ [insertedRow profile db.nextInmateId ""] := by
          rw [List.map_append]
          congr 1
          · have hfix : ∀ r ∈ db.inmate,
                (if r.id = db.nextInmateId then { r with img_url := some "" } else r) = r := by
              intro r hr
              rw [if_neg (Nat.ne_of_lt (hwfa r hr))]
            calc db.inmate.map _ = db.inmate.map id := List.map_congr_left hfix
              _ = db.inmate := List.map_id db.inmate
          · simp [insertedRow]
        have hstep : serialize_profile profile db (some client) =
            match aliasJoinLoop (dedupFirst (profile.aliases.getD [])) db.nextInmateId
                { db with
                  inmate := db.inmate ++ [insertedRow profile db.nextInmateId ""],
                  nextInmateId := db.nextInmateId + 1 } with
            | .error e => .error e
            | .ok tx => .ok (db.nextInmateId,
                { tx with img := tx.img ++
                  [{ inmate_id := db.nextInmateId, img := profile.img_blob }] }) := by
          unfold serialize_profile
          rw [hcrit]
          simp only [if_true]
          rw [hinsEq profile.get_hash_on_core_attributes]
          simp only [hcrit, if_true, hputf, Bool.false_eq_true, if_false]
          rw [hmapclear]
        obtain ⟨tx', hloop, h1, h2, h3, h4, h5⟩ :=
          aliasJoinLoop_ok_of_WF db hwf (dedupFirst (profile.aliases.getD []))
            (dedupFirst_nodup _)
            { db with
              inmate := db.inmate ++ [insertedRow profile db.nextInmateId ""],
              nextInmateId := db.nextInmateId + 1 } rfl rfl rfl
        refine ⟨{ tx' with img := tx'.img ++
            [{ inmate_id := db.nextInmateId, img := profile.img_blob }] }, ?_, ?_⟩
        · rw [hstep, hloop]
        · show tx'.inmate = _
          rw [h1, hfinal]
    · have hcritf : has_s3_upload_criteria profile (some client) = false := by
        revert hcrit
        cases has_s3_upload_criteria profile (some client) <;> simp
      have hfinal : finalImgUrl profile (some client) = "" := by
        rw [finalImgUrl, if_neg (by simp [hcritf])]
      have hstep : serialize_profile profile db (some client) =
          match aliasJoinLoop (dedupFirst (profile.aliases.getD [])) db.nextInmateId
              { db with
                inmate := db.inmate ++ [insertedRow profile db.nextInmateId ""],
                nextInmateId := db.nextInmateId + 1 } with
          | .error e => .error e
          | .ok tx => .ok (db.nextInmateId,
              { tx with img := tx.img ++
                [{ inmate_id := db.nextInmateId, img := profile.img_blob }] }) := by
        unfold serialize_profile
        rw [hcritf]
        simp only [Bool.false_eq_true, if_false]
        rw [hinsEq ""]
      obtain ⟨tx', hloop, h1, h2, h3, h4, h5⟩ :=
        aliasJoinLoop_ok_of_WF db hwf (dedupFirst (profile.aliases.getD []))
          (dedupFirst_nodup _)
          { db with
            inmate := db.inmate ++ [insertedRow profile db.nextInmateId ""],
            nextInmateId := db.nextInmateId + 1 } rfl rfl rfl
      refine ⟨{ tx' with img := tx'.img ++
          [{ inmate_id := db.nextInmateId, img := profile.img_blob }] }, ?_, ?_⟩
      · rw [hstep, hloop]
      · show tx'.inmate = _
        rw [h1, hfinal]

theorem serializeBonds_ok (inmate_id : Nat) :
    ∀ (bonds : List Bond) (tx : Db),
      ∃ tx', serializeBonds bonds inmate_id tx = .ok tx' ∧ tx'.inmate = tx.inmate := by
  intro bonds
  induction bonds with
  | nil => intro tx; exact ⟨tx, rfl, rfl⟩
  | cons b rest ih =>
    intro tx
    obtain ⟨tx', h1, h2⟩ := ih
      { tx with bond := tx.bond ++
        [({ inmate_id := inmate_id, bond_type := b.bond_type,
            amount_pennies := u64_as_i32 b.bond_amount } : BondRow)] }
    exact ⟨tx', h1, h2⟩

theorem serializeCharges_ok (inmate_id : Nat) :
    ∀ (charges : List Charge) (tx : Db),
      ∃ tx', serializeCharges charges inmate_id tx = .ok tx' ∧ tx'.inmate = tx.inmate := by
  intro charges
  induction charges with
  | nil => intro tx; exact ⟨tx, rfl, rfl⟩
  | cons c rest ih =>
    intro tx
    obtain ⟨tx', h1, h2⟩ := ih
      { tx with charge := tx.charge ++
        [({ inmate_id := inmate_id, description := c.description,
            grade := c.grade.toDisplay, offense_date := c.offense_date } : ChargeRow)] }
    exact ⟨tx', h1, h2⟩

/-- Claim C2: when the upload criteria hold, the insert succeeds, and the
S3 upload then fails, the serializer patches the freshly inserted row's
`img_url` back to the empty string inside the same transaction, still
commits, and returns the fresh inmate id — and the batch counters record
the record as inserted, not failed. -/
theorem serialize_record_upload_failure_compensates (record : Record) (db : Db)
    (client : S3Client) (hwf : Db.WF db)
    (hcrit : has_s3_upload_criteria record.profile (some client) = true)
    (hput : client.put record.profile.get_hash_on_core_attributes
      (record.profile.img_blob.getD []) = false)
    (hfn : record.profile.first_name ≠ "") (hln : record.profile.last_name ≠ "")
    (hdup : db.inmate.any (fun r => sameCoreKey r record.profile) = false) :
    (serialize_record record db (some client)).1 = .ok db.nextInmateId ∧
    (serialize_record record db (some client)).2.inmate =
      db.inmate ++ [insertedRow record.profile db.nextInmateId ""] ∧
    (insertedRow record.profile db.nextInmateId "").img_url = some "" ∧
    (serialize_records [record] db none (some client)).1 = 1 ∧
    (serialize_records [record] db none (some client)).2.1 = 0 := by
  have hfinal : finalImgUrl record.profile (some client) = "" := by
    rw [finalImgUrl, if_pos hcrit]
    simp only [hput, Bool.false_eq_true, if_false]
  obtain ⟨tx, hprof, hinm⟩ :=
    serialize_profile_ok record.profile db (some client) hwf hfn hln hdup
  rw [hfinal] at hinm
  obtain ⟨tx2, hbonds, hinm2⟩ := serializeBonds_ok db.nextInmateId record.bond.bonds tx
  obtain ⟨tx3, hcharges, hinm3⟩ :=
    serializeCharges_ok db.nextInmateId record.charges.charges tx2
  have hrec : serialize_record record db (some client) = (.ok db.nextInmateId, tx3) := by
    unfold serialize_record
    simp only [hprof, hbonds, hcharges]
  refine ⟨by rw [hrec], ?_, rfl, ?_, ?_⟩
  · rw [hrec]
    show tx3.inmate = _
    rw [hinm3, hinm2, hinm]
  · simp [serialize_records, gather_openai_embedding, hrec]
  · simp [serialize_records, gather_openai_embedding, hrec]

/-- Witness for C2: serializing `recordW` into the fresh store with an
always-failing object store commits the row with an empty `img_url` and
counts it as inserted. -/
theorem serialize_record_upload_failure_compensates_witness :
    (serialize_record recordW emptyDb (some s3AlwaysFail)).1 = .ok emptyDb.nextInmateId ∧
    (serialize_record recordW emptyDb (some s3AlwaysFail)).2.inmate =
      emptyDb.inmate ++ [insertedRow recordW.profile emptyDb.nextInmateId ""] ∧
    (insertedRow recordW.profile emptyDb.nextInmateId "").img_url = some "" ∧
    (serialize_records [recordW] emptyDb none (some s3AlwaysFail)).1 = 1 ∧
    (serialize_records [recordW] emptyDb none (some s3AlwaysFail)).2.1 = 0 :=
  serialize_record_upload_failure_compensates recordW emptyDb s3AlwaysFail
    ⟨by simp [emptyDb], by simp [emptyDb], by simp [emptyDb], by simp [emptyDb],
      by simp [emptyDb]⟩
    (by decide) rfl (by decide) (by decide) rfl

/-! ### C9 — the storage key is a deterministic function of the core
attributes, shared by the serializer and the backfill updater -/

/-- Claim C9: the object-storage key depends only on the four core
attributes — two profiles agreeing on them produce the same key — and
both persistence paths use that key: on upload success the backfill
updater sets the row's `img_url` to exactly
`get_hash_on_core_attributes`, and the transactional serializer inserts
the fresh row with `img_url` equal to the same
`get_hash_on_core_attributes`. -/
theorem storage_key_deterministic :
    (∀ p q : InmateProfile, p.first_name = q.first_name → p.last_name = q.last_name →
      p.dob = q.dob → p.booking_date_iso8601 = q.booking_date_iso8601 →
      p.get_hash_on_core_attributes = q.get_hash_on_core_attributes) ∧
    (∀ (inmate_id : Nat) (record : Record) (db : Db) (client : S3Client),
      record.profile.img_blob.isSome = true →
      has_s3_upload_criteria record.profile (some client) = true →
      client.put record.profile.get_hash_on_core_attributes
        (record.profile.img_blob.getD []) = true →
      update_null_img_record inmate_id record db (some client) =
        .ok { db with inmate := db.inmate.map (fun r =>
          if r.id = inmate_id then
            { r with img_url := some record.profile.get_hash_on_core_attributes }
          else r) }) ∧
    (∀ (profile : InmateProfile) (db : Db) (client : S3Client),
      Db.WF db → profile.first_name ≠ "" → profile.last_name ≠ "" →
      db.inmate.any (fun r => sameCoreKey r profile) = false →
      has_s3_upload_criteria profile (some client) = true →
      client.put profile.get_hash_on_core_attributes (profile.img_blob.getD []) = true →
      ∃ tx, serialize_profile profile db (some client) = .ok (db.nextInmateId, tx) ∧
        tx.inmate = db.inmate ++
          [insertedRow profile db.nextInmateId profile.get_hash_on_core_attributes]) := by
  refine ⟨?_, ?_, ?_⟩
  · intro p q h1 h2 h3 h4
    unfold InmateProfile.get_hash_on_core_attributes
    rw [h1, h2, h3, h4]
  · intro inmate_id record db client hS hcrit hput
    have hnone : record.profile.img_blob.isNone = false := by
      rcases hbl : record.profile.img_blob with _ | blob
      · rw [hbl] at hS
        exact absurd hS (by simp)
      · rfl
    unfold update_null_img_record
    rw [hnone]
    simp only [Bool.false_eq_true, if_false, hcrit, Bool.not_true]
    rw [hput]
    simp only [if_true]
  · intro profile db client hwf hfn hln hdup hcrit hput
    have hfinal : finalImgUrl profile (some client) =
        profile.get_hash_on_core_attributes := by
      rw [finalImgUrl, if_pos hcrit]
      simp only [hput, if_true]
    obtain ⟨tx, h1, h2⟩ := serialize_profile_ok profile db (some client) hwf hfn hln hdup
    exact ⟨tx, h1, by rw [h2, hfinal]⟩

/-- Witness for C9: `profileW` and `profileWVariant` differ in middle
name, booking number and image but share all four core attributes, so
they produce the same storage key. -/
theorem storage_key_deterministic_witness :
    profileW.get_hash_on_core_attributes = profileWVariant.get_hash_on_core_attributes :=
  storage_key_deterministic.1 profileW profileWVariant rfl rfl rfl rfl
